import Mathlib

/-!
Verification of the py-typedlogic core: the Sentence/Theory data model, the
clause normalizer, and the backend emitters (Prolog, ProbLog, Souffle,
Prover9/TPTP numeric encoding, S-expression and structured-record
interchange).  The compiler sources themselves are not in the repository
slice at hand; every definition whose doc comment starts "Modelled from the
spec:" is built from spec.md's words, and the emitters' concrete text
conventions are anchored against the committed test snapshots under
src/tests/__snapshots__ and the unnamed snapshot parts, which record the
reference implementation's actual output.
-/

set_option maxRecDepth 4000

namespace TypedLogic

/-- Literal constant values occurring as term arguments: strings, integers,
decimal (floating-point) literals, booleans and null.  A decimal literal is
kept exactly as written: `dec m k` is the literal whose digits are `m`
scaled by `10 ^ (k + 1)`, so `0.9 = dec 9 0`, `6.5 = dec 65 0`,
`0.95 = dec 95 1`, `1.0 = dec 10 0`. -/
inductive Const where
  | str (s : String)
  | int (n : Int)
  | dec (m : Int) (k : Nat)
  | bool (b : Bool)
  | null
deriving DecidableEq, Repr

/-- A bound-variable binder of a quantifier: name and optional declared type. -/
structure Binder where
  name : String
  ty : Option String
deriving DecidableEq, Repr

mutual

/-- A term argument: a logic variable (with optional declared type), a literal
constant, or a nested structured term (functor applied to arguments), e.g.
`Code("ICD10","E11")` as an argument of `Diagnosis(...)`. -/
inductive Arg where
  | var (name : String) (ty : Option String)
  | const (c : Const)
  | app (functor : String) (args : Args)
deriving DecidableEq, Repr

/-- The argument list of a term, as its own inductive so that structural
recursion and induction stay purely structural. -/
inductive Args where
  | nil
  | cons (hd : Arg) (tl : Args)
deriving DecidableEq, Repr

end

mutual

/-- The Sentence IR: the immutable tagged-variant tree of §3 of the spec.
`atom` is a `Term` used as an atomic proposition; the probabilistic
extension wrappers are `prob` (`Probability`) and `evid` (`Evidence`). -/
inductive Sentence where
  | atom (pred : String) (args : Args)
  | not (s : Sentence)
  | and (xs : Sentences)
  | or (xs : Sentences)
  | implies (a b : Sentence)
  | iff (a b : Sentence)
  | forAll (vs : List Binder) (body : Sentence)
  | exist (vs : List Binder) (body : Sentence)
  | prob (p : Const) (s : Sentence)
  | evid (s : Sentence) (polarity : Bool)
deriving DecidableEq, Repr

/-- An operand list of `And`/`Or`, as its own inductive for structural
recursion. -/
inductive Sentences where
  | nil
  | cons (hd : Sentence) (tl : Sentences)
deriving DecidableEq, Repr

end

/-- List view of an `Args` value. -/
def Args.toList : Args → List Arg
  | .nil => []
  | .cons a t => a :: t.toList

/-- Build an `Args` value from a list. -/
def Args.ofList : List Arg → Args
  | [] => .nil
  | a :: t => .cons a (Args.ofList t)

/-- List view of a `Sentences` value. -/
def Sentences.toList : Sentences → List Sentence
  | .nil => []
  | .cons s t => s :: t.toList

/-- Build a `Sentences` value from a list. -/
def Sentences.ofList : List Sentence → Sentences
  | [] => .nil
  | s :: t => .cons s (Sentences.ofList t)

/-- A predicate declaration: name, ordered argument name/type pairs (order is
the canonical argument order, size is the arity), optional description and
metadata, parent predicate names, and the optional originating class name. -/
structure PredicateDefinition where
  predicate : String
  arguments : List (String × String)
  description : Option String
  metadata : Option String
  parents : List String
  python_class : Option String
deriving DecidableEq, Repr

/-- A type alias body: a primitive type name or an ordered union of
alternative type names. -/
inductive TypeDef where
  | prim (name : String)
  | union (alts : List String)
deriving DecidableEq, Repr

/-- A named collection of sentences with an optional kind tag
(`axiom` / `goal` / untagged) and docstring. -/
structure SentenceGroup where
  name : String
  group_type : Option String
  docstring : Option String
  sentences : List Sentence
deriving DecidableEq, Repr

/-- A Theory: name, constant table, type-alias table, predicate definitions,
ordered sentence groups and ground facts (ground `atom` sentences). -/
structure Theory where
  name : String
  constants : List (String × String)
  type_definitions : List (String × TypeDef)
  predicate_definitions : List PredicateDefinition
  sentence_groups : List SentenceGroup
  ground_terms : List Sentence
deriving DecidableEq, Repr

/-! ## Clause normalizer (spec §4.3) -/

/-- A signed body literal of a flat clause: a positive or a
negation-as-failure occurrence of an atomic sentence. -/
inductive Lit where
  | pos (a : Sentence)
  | neg (a : Sentence)
deriving DecidableEq, Repr

/-- A flat clause: optional head (none = headless integrity constraint) and
an ordered conjunctive body of literals. -/
structure Clause where
  head : Option Sentence
  body : List Lit
deriving DecidableEq, Repr

/-- Normalization error taxonomy (spec §7), restricted to the conditions the
normalizer below can raise. -/
inductive NormError where
  | unsupportedNegationShape
  | unsupportedSentenceShape
deriving DecidableEq, Repr

deriving instance DecidableEq for Except

/-- Modelled from the spec: recognition of the guarded-ladder shape
`And(Implies(C, H), Implies(Not(C), rest))` of §4.3, where `rest` is either
the next guarded branch or the final else sentence.  Returns the branch list
(guard, head) and the else sentence. -/
def parseLadder : Sentence → Option (List (Sentence × Sentence) × Sentence)
  | .and (.cons (.implies c h) (.cons (.implies (.not c') rest) .nil)) =>
      if c' = c then
        match parseLadder rest with
        | some (br, e) => some ((c, h) :: br, e)
        | none => some ([(c, h)], rest)
      else none
  | _ => none

/-- Append the negation of guard `c` to a clause's body. -/
def negAdd (c : Sentence) (cl : Clause) : Clause :=
  ⟨cl.head, cl.body ++ [Lit.neg c]⟩

/-- Modelled from the spec: §4.3's if/elif/else flattening.  Branch `i`
becomes a clause with head `H_i` and body the shared preconditions, then the
positive guard `C_i`, then the negation of every earlier branch's guard; the
final else becomes a clause whose body is the preconditions and the
negations of all the guards. -/
def flattenBranches (pre : List Lit) : List (Sentence × Sentence) → Sentence → List Clause
  | [], e => [⟨some e, pre⟩]
  | (c, h) :: br, e =>
      ⟨some h, pre ++ [Lit.pos c]⟩ :: (flattenBranches pre br e).map (negAdd c)

mutual

/-- Modelled from the spec: the conjunctive body of a clause as an ordered
literal list — an atom is a positive literal, `Not` on an atom is
negation-as-failure, `And` is flattened in order.  `none` for any other
shape. -/
def bodyLits : Sentence → Option (List Lit)
  | .atom p args => some [Lit.pos (.atom p args)]
  | .not (.atom p args) => some [Lit.neg (.atom p args)]
  | .and xs => bodyLitsList xs
  | _ => none

/-- Conjunct-list worker of `bodyLits`. -/
def bodyLitsList : Sentences → Option (List Lit)
  | .nil => some []
  | .cons s t => do
      let l ← bodyLits s
      let r ← bodyLitsList t
      pure (l ++ r)

end

mutual

/-- Modelled from the spec: a clause head position may be one atom or a
conjunction of atoms (a conjunctive head yields one clause per conjunct). -/
def headAtoms : Sentence → Option (List Sentence)
  | .atom p args => some [.atom p args]
  | .and xs => headAtomsList xs
  | _ => none

/-- Conjunct-list worker of `headAtoms`. -/
def headAtomsList : Sentences → Option (List Sentence)
  | .nil => some []
  | .cons (.atom p args) t => do
      let r ← headAtomsList t
      pure (Sentence.atom p args :: r)
  | .cons _ _ => none

end

/-- Modelled from the spec: the clause normalizer of §4.3 for the
clause-oriented backends.  Strips outer universal quantifiers, compiles a
guarded ladder (optionally under shared preconditions) branch by branch,
turns `Implies(body, head)` into one flat clause per head conjunct, emits a
ground atom as a bodiless clause, and turns `Not` wrapping a full sentence
into a headless integrity constraint when the target supports that form,
rejecting it with `UnsupportedNegationShape` otherwise. -/
def normalizeSentence (supportsConstraints : Bool) : Sentence → Except NormError (List Clause)
  | .forAll _ body => normalizeSentence supportsConstraints body
  | .atom p args => .ok [⟨some (.atom p args), []⟩]
  | .implies b h =>
      match bodyLits b with
      | none => .error .unsupportedSentenceShape
      | some pre =>
        match parseLadder h with
        | some (br, e) => .ok (flattenBranches pre br e)
        | none =>
          match headAtoms h with
          | some hs => .ok (hs.map fun a => ⟨some a, pre⟩)
          | none => .error .unsupportedSentenceShape
  | .and (.cons (.implies c h) (.cons (.implies (.not c') rest) .nil)) =>
      match parseLadder (.and (.cons (.implies c h) (.cons (.implies (.not c') rest) .nil))) with
      | some (br, e) => .ok (flattenBranches [] br e)
      | none => .error .unsupportedSentenceShape
  | .not s =>
      if supportsConstraints then
        match bodyLits s with
        | some lits => .ok [⟨none, lits⟩]
        | none => .error .unsupportedNegationShape
      else .error .unsupportedNegationShape
  | _ => .error .unsupportedSentenceShape

/-- The claim's closed-form description of ladder flattening: clause `i` has
head `H_i` and body `preconditions ++ [C_i] ++ [¬C_(i-1) … ¬C_1]` (the
negations of the earlier guards, innermost first, as in spec §8 Scenario C),
and the final else clause has body `preconditions ++ [¬C_(n-1) … ¬C_1]`. -/
def claimClauses (pre : List Lit) (br : List (Sentence × Sentence)) (e : Sentence) : List Clause :=
  (br.mapIdx fun i b =>
    ⟨some b.2, pre ++ [Lit.pos b.1] ++ ((br.take i).reverse.map fun b' => Lit.neg b'.1)⟩)
  ++ [⟨some e, pre ++ (br.reverse.map fun b' => Lit.neg b'.1)⟩]

/-! ## Guard-assignment semantics for mutual exclusivity (spec §8) -/

/-- Truth of a literal under a truth assignment to the atomic sentences. -/
def litSat (v : Sentence → Bool) : Lit → Bool
  | .pos a => v a
  | .neg a => !v a

/-- Truth of a clause body (a conjunction) under an assignment. -/
def bodySat (v : Sentence → Bool) (body : List Lit) : Bool :=
  body.all (litSat v)

/-- How many of the clauses' bodies an assignment satisfies. -/
def countSat (v : Sentence → Bool) (cls : List Clause) : Nat :=
  (cls.filter fun cl => bodySat v cl.body).length

theorem bodySat_negAdd (v : Sentence → Bool) (c : Sentence) (cl : Clause) :
    bodySat v (negAdd c cl).body = (bodySat v cl.body && !v c) := by
  simp [negAdd, bodySat, List.all_append, litSat]

theorem countSat_cons (v : Sentence → Bool) (cl : Clause) (cls : List Clause) :
    countSat v (cl :: cls)
      = (if bodySat v cl.body then 1 else 0) + countSat v cls := by
  simp only [countSat, List.filter_cons]
  by_cases hb : bodySat v cl.body <;> simp [hb, Nat.add_comm]

theorem countSat_le_one (v : Sentence → Bool) (pre : List Lit)
    (br : List (Sentence × Sentence)) (e : Sentence) :
    countSat v (flattenBranches pre br e) ≤ 1 := by
  induction br with
  | nil =>
      calc countSat v (flattenBranches pre [] e)
          ≤ [(⟨some e, pre⟩ : Clause)].length := List.length_filter_le _ _
        _ = 1 := rfl
  | cons b br ih =>
      obtain ⟨c, h⟩ := b
      rw [flattenBranches, countSat_cons]
      cases hc : v c with
      | true =>
          have h0 : countSat v ((flattenBranches pre br e).map (negAdd c)) = 0 := by
            simp only [countSat, List.length_eq_zero]
            refine List.filter_eq_nil_iff.mpr fun cl hcl => ?_
            obtain ⟨cl', _, rfl⟩ := List.mem_map.mp hcl
            simp [bodySat_negAdd, hc]
          rw [h0]
          split <;> simp
      | false =>
          have hb : bodySat v (pre ++ [Lit.pos c]) = false := by
            simp [bodySat, List.all_append, litSat, hc]
          have hsame : countSat v ((flattenBranches pre br e).map (negAdd c))
              = countSat v (flattenBranches pre br e) := by
            simp only [countSat, List.filter_map, List.length_map]
            congr 1
            refine List.filter_congr fun cl _ => ?_
            simp [Function.comp, bodySat_negAdd, hc]
          rw [hb, hsame]
          simpa using ih

/-! ## Backend emitters (spec §4.4), text conventions anchored to the
committed snapshots -/

/-- Decimal digit-string of a natural number padded with leading zeros to
`w` digits. -/
def padZeros (w : Nat) (s : String) : String :=
  String.mk (List.replicate (w - s.length) '0') ++ s

/-- Render the decimal literal `m / 10 ^ (k + 1)` exactly as written in the
source, e.g. `dec 65 0 = "6.5"`, `dec 95 1 = "0.95"`. -/
def decString (m : Int) (k : Nat) : String :=
  let f := k + 1
  let a := m.natAbs
  let frac := Nat.repr (a % 10 ^ f)
  (if m < 0 then "-" else "") ++ Nat.repr (a / 10 ^ f) ++ "."
    ++ padZeros f frac

/-- Lowercase a name character by character (kernel-computable rendering of
the emitters' lowercasing of atoms and predicate names). -/
def lowerStr (s : String) : String := String.mk (s.data.map Char.toLower)

/-- Upper-camel rendering of a logic variable for the Prolog family:
capitalize the first letter (`patient_id ↦ Patient_id`, `x ↦ X`). -/
def upperCamel (s : String) : String :=
  match s.data with
  | [] => ""
  | c :: rest => String.mk (c.toUpper :: rest)

/-- Modelled from the spec: a backend's identifier/constant conventions —
how it renders a constant, a variable name and a predicate/functor name. -/
structure RenderCfg where
  renderConst : Const → String
  renderVarName : String → String
  renderPred : String → String

/-- Prolog constant rendering: string/symbol constants single-quoted (the
snapshots quote every string constant, `'corky'` and `'E11'` alike), numbers
as written, booleans `True`/`False`, null as the anonymous variable `_`. -/
def prologConst : Const → String
  | .str s => "'" ++ s ++ "'"
  | .int n => Int.repr n
  | .dec m k => decString m k
  | .bool b => if b then "True" else "False"
  | .null => "_"

/-- ProbLog constant rendering: like Prolog but string constants are
double-quoted and booleans lowercase (snapshot evidence: `"p1"`, `true`). -/
def problogConst : Const → String
  | .str s => "\"" ++ s ++ "\""
  | .int n => Int.repr n
  | .dec m k => decString m k
  | .bool b => if b then "true" else "false"
  | .null => "_"

/-- Souffle constant rendering: double-quoted strings, numbers as written. -/
def souffleConst : Const → String
  | .str s => "\"" ++ s ++ "\""
  | .int n => Int.repr n
  | .dec m k => decString m k
  | .bool b => if b then "true" else "false"
  | .null => "_"

/-- The Prolog family's conventions: upper-camel variables, lowercased
atoms/predicate names. -/
def prologCfg : RenderCfg := ⟨prologConst, upperCamel, lowerStr⟩

/-- ProbLog shares Prolog's casing but double-quotes string constants. -/
def problogCfg : RenderCfg := ⟨problogConst, upperCamel, lowerStr⟩

/-- Souffle keeps variable and predicate names as written and double-quotes
strings. -/
def souffleCfg : RenderCfg := ⟨souffleConst, id, id⟩

/-- Comparison predicates rendered as infix operators by the clause-based
emitters (snapshot evidence: `Value >= 90`, `Lhs != Rhs`, `age > 44`). -/
def infixOp : String → Option String
  | "ge" => some ">="
  | "gt" => some ">"
  | "le" => some "<="
  | "lt" => some "<"
  | "ne" => some "!="
  | "eq" => some "=="
  | _ => none

mutual

/-- Render one term argument under a backend's conventions. -/
def renderArg (cfg : RenderCfg) : Arg → String
  | .var n _ => cfg.renderVarName n
  | .const c => cfg.renderConst c
  | .app f args =>
      match renderArgs cfg args with
      | [] => cfg.renderPred f
      | l => cfg.renderPred f ++ "(" ++ String.intercalate ", " l ++ ")"

/-- Render an argument list. -/
def renderArgs (cfg : RenderCfg) : Args → List String
  | .nil => []
  | .cons a t => renderArg cfg a :: renderArgs cfg t

end

/-- Render an atomic sentence: infix comparisons infix, otherwise the
predicate name (cased per backend) applied to its arguments, a zero-arity
atom as the bare name.  Non-atoms do not occur in clause positions. -/
def renderAtom (cfg : RenderCfg) : Sentence → String
  | .atom p (.cons a (.cons b .nil)) =>
      match infixOp p with
      | some op => renderArg cfg a ++ " " ++ op ++ " " ++ renderArg cfg b
      | none => cfg.renderPred p ++ "(" ++ renderArg cfg a ++ ", " ++ renderArg cfg b ++ ")"
  | .atom p .nil => cfg.renderPred p
  | .atom p args => cfg.renderPred p ++ "(" ++ String.intercalate ", " (renderArgs cfg args) ++ ")"
  | _ => ""

/-- Prolog body-literal rendering: negation-as-failure as `\+ (...)`. -/
def prologLit : Lit → String
  | .pos a => renderAtom prologCfg a
  | .neg a => "\\+ (" ++ renderAtom prologCfg a ++ ")"

/-- Souffle body-literal rendering: Datalog negation token `!`. -/
def souffleLit : Lit → String
  | .pos a => renderAtom souffleCfg a
  | .neg a => "! (" ++ renderAtom souffleCfg a ++ ")"

/-- One Prolog clause line: `head.` for a fact, `head :- body.` otherwise,
`:- body.` for a headless constraint. -/
def prologClause (cl : Clause) : String :=
  match cl.head, cl.body with
  | some h, [] => renderAtom prologCfg h ++ "."
  | some h, body =>
      renderAtom prologCfg h ++ " :- " ++ String.intercalate ", " (body.map prologLit) ++ "."
  | none, body => ":- " ++ String.intercalate ", " (body.map prologLit) ++ "."

/-- The clause text shared by the Prolog-family emitters, parameterized only
by the constant-rendering convention; defined for clauses whose body holds
no negated literal (where ProbLog and Prolog agree up to quoting). -/
def commonClause (rc : Const → String) (cl : Clause) : String :=
  let cfg : RenderCfg := ⟨rc, upperCamel, lowerStr⟩
  match cl.head, cl.body with
  | some h, [] => renderAtom cfg h ++ "."
  | some h, body =>
      renderAtom cfg h ++ " :- "
        ++ String.intercalate ", " (body.map fun l => match l with
            | .pos a => renderAtom cfg a
            | .neg a => "\\+ (" ++ renderAtom cfg a ++ ")") ++ "."
  | none, body => ":- " ++ String.intercalate ", " (body.map fun l => match l with
      | .pos a => renderAtom cfg a
      | .neg a => "\\+ (" ++ renderAtom cfg a ++ ")") ++ "."

/-- One ProbLog clause line: a clause with negated body literals moves the
negated atoms into a disjunctive head (snapshot evidence:
`classslot(Cls, Slot); invalidclassslot(Cls, Slot) :- classdefinition(Cls),
slotdefinition(Slot).`); otherwise exactly the Prolog shape with ProbLog's
constant quoting. -/
def problogClause (cl : Clause) : String :=
  let negs := cl.body.filterMap fun l => match l with
    | .neg a => some a
    | .pos _ => none
  let poss := cl.body.filterMap fun l => match l with
    | .pos a => some a
    | .neg _ => none
  match negs, cl.head with
  | [], _ => commonClause problogConst cl
  | _, none => commonClause problogConst cl
  | _, some h =>
      String.intercalate "; " ((negs ++ [h]).map (renderAtom problogCfg))
        ++ " :- " ++ String.intercalate ", " (poss.map (renderAtom problogCfg)) ++ "."

/-- One Souffle clause line. -/
def souffleClause (cl : Clause) : String :=
  match cl.head, cl.body with
  | some h, [] => renderAtom souffleCfg h ++ "."
  | some h, body =>
      renderAtom souffleCfg h ++ " :- " ++ String.intercalate ", " (body.map souffleLit) ++ "."
  | none, body => ":- " ++ String.intercalate ", " (body.map souffleLit) ++ "."

/-! ## Theory-level compilation with per-sentence diagnostics (spec §7) -/

/-- A recorded skip: the offending group's name, the offending sentence and
the normalization error. -/
structure Diag where
  group : String
  sentence : Sentence
  error : NormError
deriving DecidableEq, Repr

/-- Modelled from the spec: normalize each sentence of a group in order; a
failing sentence contributes a diagnostic instead of clauses and the rest
still compile (partial-success policy). -/
def clausesOfSentences (sc : Bool) (gname : String) : List Sentence → List Clause × List Diag
  | [] => ([], [])
  | s :: t =>
      let rest := clausesOfSentences sc gname t
      match normalizeSentence sc s with
      | .ok cls => (cls ++ rest.1, rest.2)
      | .error e => (rest.1, ⟨gname, s, e⟩ :: rest.2)

/-- Modelled from the spec: clause-level compilation of a whole Theory — all
groups in declaration order regardless of their kind tag, then the ground
facts as bodiless clauses; alongside, the accumulated diagnostics. -/
def compileTheoryClauses (sc : Bool) (T : Theory) : List Clause × List Diag :=
  let gs := T.sentence_groups.map fun g => clausesOfSentences sc g.name g.sentences
  let folded := gs.foldr (fun p acc => (p.1 ++ acc.1, p.2 ++ acc.2)) ([], [])
  (folded.1 ++ T.ground_terms.map fun t => ⟨some t, []⟩, folded.2)

/-- The Prolog emitter's program lines (clause text only; comment headers
and query directives are formatting, out of the clause semantics). -/
def prologProgram (T : Theory) : List String :=
  (compileTheoryClauses false T).1.map prologClause

/-- The ProbLog emitter's program lines (the ProbLog target supports
headless integrity constraints). -/
def problogProgram (T : Theory) : List String :=
  (compileTheoryClauses true T).1.map problogClause

/-- A Theory with every group's kind tag replaced according to `f` —
used to state that clause emission ignores the axiom/goal tag. -/
def retagGroups (f : SentenceGroup → Option String) (T : Theory) : Theory :=
  { T with sentence_groups := T.sentence_groups.map fun g => { g with group_type := f g } }

/-! ## Concrete theories and snapshot data -/

/-- Shorthand: an untyped variable argument. -/
def aVar (n : String) : Arg := .var n none

/-- Shorthand: a string constant argument. -/
def aStr (s : String) : Arg := .const (.str s)

/-- Shorthand: an integer constant argument. -/
def aInt (n : Int) : Arg := .const (.int n)

/-- Shorthand: a decimal constant argument (`aDec m k` is `m / 10 ^ (k+1)`). -/
def aDec (m : Int) (k : Nat) : Arg := .const (.dec m k)

/-- Shorthand: a structured (functor) argument. -/
def aApp (f : String) (l : List Arg) : Arg := .app f (Args.ofList l)

/-- Shorthand: an atomic sentence from an argument list. -/
def mkAtom (p : String) (l : List Arg) : Sentence := .atom p (Args.ofList l)

/-- Shorthand: a conjunction from a sentence list. -/
def mkAnd (l : List Sentence) : Sentence := .and (Sentences.ofList l)

/-- The guarded-ladder sentence shape of spec §4.3: each branch's else is the
conjunction of the next guarded branch, ending in the else sentence. -/
def ladderSentence : List (Sentence × Sentence) → Sentence → Sentence
  | [], e => e
  | (c, h) :: br, e =>
      .and (.cons (.implies c h)
        (.cons (.implies (.not c) (ladderSentence br e)) .nil))

/-- The `date(y, m, d)` structured argument of the EHR theory. -/
def dateArg (y m d : Int) : Arg := aApp "date" [aInt y, aInt m, aInt d]

/-- The `Code(system, value)` structured argument of the EHR theory. -/
def codeArg (sys val : String) : Arg := aApp "Code" [aStr sys, aStr val]

/-- The shared `Patient` precondition of the EHR `ckd_from_egfr` ladder
(from the ehr_phenotyping S-expression snapshot). -/
def ehrPatient : Sentence :=
  mkAtom "Patient" [aVar "patient_id", dateArg 1970 1 1, aStr "unknown"]

/-- The shared `LabResult` precondition of the EHR `ckd_from_egfr` ladder. -/
def ehrLabResult : Sentence :=
  mkAtom "LabResult" [aVar "patient_id", dateArg 2024 1 1,
    codeArg "LOINC" "62238-1", aVar "value", aStr "mL/min/1.73m²"]

/-- The eGFR guard `value >= n`. -/
def geValue (n : Int) : Sentence := mkAtom "ge" [aVar "value", aInt n]

/-- The CKD stage head `CKD(patient_id, stage, confidence)`. -/
def ckdHead (stage m : Int) (k : Nat) : Sentence :=
  mkAtom "CKD" [aVar "patient_id", aInt stage, aDec m k]

/-- The four guarded branches of the `ckd_from_egfr` ladder. -/
def ckdBranches : List (Sentence × Sentence) :=
  [(geValue 90, ckdHead 1 5 0), (geValue 60, ckdHead 2 7 0),
   (geValue 30, ckdHead 3 9 0), (geValue 15, ckdHead 4 95 1)]

/-- The final else branch of the `ckd_from_egfr` ladder: stage 5. -/
def ckdElse : Sentence := ckdHead 5 99 1

/-- The `ckd_from_egfr` sentence exactly as recorded in the ehr_phenotyping
S-expression snapshot: a 4-guard/5-branch ladder under two shared
preconditions. -/
def ckdEgfrSentence : Sentence :=
  .forAll [⟨"patient_id", some "str"⟩, ⟨"value", some "float"⟩]
    (.implies (mkAnd [ehrPatient, ehrLabResult])
      (ladderSentence ckdBranches ckdElse))

/-- The shared preconditions of the ladder as body literals. -/
def ckdPre : List Lit := [.pos ehrPatient, .pos ehrLabResult]

/-- What the reference implementation actually emitted for `ckd_from_egfr`
(Prolog snapshot, part_009 lines 44–48), transcribed clause by clause:
clauses 2–5 have the first guard as their head and negate the later branch
heads. -/
def part009CkdClauses : List Clause :=
  [⟨some (ckdHead 1 5 0), [.pos (geValue 90), .pos ehrPatient, .pos ehrLabResult]⟩,
   ⟨some (geValue 90), [.pos (geValue 60), .pos ehrPatient, .pos ehrLabResult,
      .neg (ckdHead 2 7 0)]⟩,
   ⟨some (geValue 90), [.pos (geValue 30), .pos ehrPatient, .pos ehrLabResult,
      .neg (ckdHead 3 9 0), .neg (geValue 60)]⟩,
   ⟨some (geValue 90), [.pos (geValue 15), .pos ehrPatient, .pos ehrLabResult,
      .neg (ckdHead 4 95 1), .neg (geValue 30), .neg (geValue 60)]⟩,
   ⟨some (geValue 90), [.pos ehrPatient, .pos ehrLabResult, .neg (geValue 15),
      .neg (ckdHead 5 99 1), .neg (geValue 30), .neg (geValue 60)]⟩]

/-- The Prolog snapshot's five emitted lines for `ckd_from_egfr`
(src/unnamed/part_009 lines 44–48), verbatim. -/
def part009CkdLines : List String :=
  ["ckd(Patient_id, 1, 0.5) :- Value >= 90, patient(Patient_id, date(1970, 1, 1), 'unknown'), labresult(Patient_id, date(2024, 1, 1), code('LOINC', '62238-1'), Value, 'mL/min/1.73m²').",
   "Value >= 90 :- Value >= 60, patient(Patient_id, date(1970, 1, 1), 'unknown'), labresult(Patient_id, date(2024, 1, 1), code('LOINC', '62238-1'), Value, 'mL/min/1.73m²'), \\+ (ckd(Patient_id, 2, 0.7)).",
   "Value >= 90 :- Value >= 30, patient(Patient_id, date(1970, 1, 1), 'unknown'), labresult(Patient_id, date(2024, 1, 1), code('LOINC', '62238-1'), Value, 'mL/min/1.73m²'), \\+ (ckd(Patient_id, 3, 0.9)), \\+ (Value >= 60).",
   "Value >= 90 :- Value >= 15, patient(Patient_id, date(1970, 1, 1), 'unknown'), labresult(Patient_id, date(2024, 1, 1), code('LOINC', '62238-1'), Value, 'mL/min/1.73m²'), \\+ (ckd(Patient_id, 4, 0.95)), \\+ (Value >= 30), \\+ (Value >= 60).",
   "Value >= 90 :- patient(Patient_id, date(1970, 1, 1), 'unknown'), labresult(Patient_id, date(2024, 1, 1), code('LOINC', '62238-1'), Value, 'mL/min/1.73m²'), \\+ (Value >= 15), \\+ (ckd(Patient_id, 5, 0.99)), \\+ (Value >= 30), \\+ (Value >= 60)."]

/-- The truth assignment of an eGFR reading of 95: every guard and
precondition holds, no `ckd` atom is derived. -/
def egfr95Valuation : Sentence → Bool
  | .atom "CKD" _ => false
  | _ => true

/-! ### Scenario C (spec §8): the synthetic three-branch ladder -/

/-- Scenario C guard `v >= n`. -/
def scGuard (n : Int) : Sentence := mkAtom "ge" [aVar "v", aInt n]

/-- Scenario C stage head. -/
def scStage (i : Int) : Sentence := mkAtom "CKDStage" [aVar "v", aInt i]

/-- Scenario C: stage 1 if v≥90, stage 2 if 60≤v<90, else stage 3. -/
def scenarioCSentence : Sentence :=
  ladderSentence [(scGuard 90, scStage 1), (scGuard 60, scStage 2)] (scStage 3)

/-! ### The mortals theory (S-expression snapshot) and its Prolog/ProbLog
emissions -/

/-- `AncestorOf` atom over two variables. -/
def ancV (x y : String) : Sentence := mkAtom "AncestorOf" [aVar x, aVar y]

/-- `AncestorOf` atom over two string constants. -/
def ancC (x y : String) : Sentence := mkAtom "AncestorOf" [aStr x, aStr y]

/-- The mortals theory as recorded in the S-expression snapshot: a mortality
axiom, a transitivity axiom, an acyclicity constraint and a goal-tagged
ground transitivity check. -/
def mortalsTheory : Theory where
  name := "tests.theorems.mortals"
  constants := [("List", "typing.List")]
  type_definitions := [("NameType", .prim "str"), ("TreeNodeType", .prim "str")]
  predicate_definitions :=
    [⟨"Person", [("name", "str")], none, none, [], none⟩,
     ⟨"Mortal", [("name", "str")], none, none, [], none⟩,
     ⟨"AncestorOf", [("ancestor", "str"), ("descendant", "str")], none, none, [], none⟩]
  sentence_groups :=
    [⟨"all_persons_are_mortal_axiom", some "axiom", some "All persons are mortal",
      [.forAll [⟨"x", some "NameType"⟩]
        (.implies (mkAtom "Person" [aVar "x"]) (mkAtom "Mortal" [aVar "x"]))]⟩,
     ⟨"ancestor_transitivity_axiom", some "axiom", none,
      [.forAll [⟨"x", some "TreeNodeType"⟩, ⟨"y", some "TreeNodeType"⟩, ⟨"z", some "TreeNodeType"⟩]
        (.implies (mkAnd [ancV "x" "z", ancV "z" "y"]) (ancV "x" "y"))]⟩,
     ⟨"acyclicity_axiom", some "axiom", none,
      [.forAll [⟨"x", some "TreeNodeType"⟩, ⟨"y", some "TreeNodeType"⟩]
        (.not (mkAnd [ancV "x" "y", ancV "y" "x"]))]⟩,
     ⟨"check_transitivity", some "goal", none,
      [.implies (mkAnd [ancC "p1" "p2", ancC "p2" "p3"]) (ancC "p1" "p3")]⟩]
  ground_terms := []

/-! ### The animals theory (Prolog snapshot with quoted identifier-only
constants) -/

/-- The animals theory: ground person/animal facts in groups plus two
preference axioms, as in the animals Prolog snapshot. -/
def animalsTheory : Theory where
  name := "tests.theorems.animals"
  constants := []
  type_definitions := []
  predicate_definitions :=
    [⟨"Likes", [("subject", "str"), ("object", "str")], none, none, [], none⟩,
     ⟨"Person", [("name", "str")], none, none, [], none⟩,
     ⟨"Animal", [("name", "str"), ("species", "str")], none, none, [], none⟩]
  sentence_groups :=
    [⟨"persons", none, none,
      [mkAtom "Person" [aStr "Fred"], mkAtom "Person" [aStr "Jie"]]⟩,
     ⟨"animals", none, none,
      [mkAtom "Animal" [aStr "corky", aStr "cat"],
       mkAtom "Animal" [aStr "fido", aStr "dog"]]⟩,
     ⟨"animal_preferences", none, none,
      [.forAll [⟨"x", none⟩, ⟨"species", none⟩]
        (.implies (mkAtom "Animal" [aVar "x", aVar "species"])
          (mkAtom "Likes" [aVar "x", aStr "Fred"])),
       .forAll [⟨"x", none⟩]
        (.implies (mkAtom "Animal" [aVar "x", aStr "cat"])
          (mkAtom "Likes" [aVar "x", aStr "Jie"]))]⟩]
  ground_terms := []

/-! ### The barbers clause and the linkml `invalid_class_slot` clause
(negation rendering anchors) -/

/-- The barbers sentence: a barber shaves every customer who does not shave
himself. -/
def barbersSentence : Sentence :=
  .forAll [⟨"shaver", none⟩, ⟨"customer", none⟩]
    (.implies
      (mkAnd [mkAtom "Barber" [aVar "shaver"], mkAtom "Person" [aVar "customer"],
        .not (mkAtom "Shaves" [aVar "customer", aVar "customer"])])
      (mkAtom "Shaves" [aVar "shaver", aVar "customer"]))

/-- The linkml `invalid_class_slot` axiom (from the meta_axioms
S-expression snapshot): closed-world marking of disallowed class slots. -/
def invalidClassSlotSentence : Sentence :=
  .forAll [⟨"cls", some "ElementID"⟩, ⟨"slot", some "ElementID"⟩]
    (.implies
      (mkAnd [mkAtom "ClassDefinition" [aVar "cls"], mkAtom "SlotDefinition" [aVar "slot"],
        .not (mkAtom "ClassSlot" [aVar "cls", aVar "slot"])])
      (mkAtom "InvalidClassSlot" [aVar "cls", aVar "slot"]))

/-! ### Scenario A (spec §8): the Link/Path theory -/

/-- Scenario A: predicate `Link(source, target)`, the axiom
`Forall([x, y], Implies(Link(x, y), Path(x, y)))` and the ground fact
`Link("CA", "OR")`. -/
def scenarioATheory : Theory where
  name := "paths"
  constants := []
  type_definitions := []
  predicate_definitions :=
    [⟨"Link", [("source", "str"), ("target", "str")], none, none, [], none⟩,
     ⟨"Path", [("source", "str"), ("target", "str")], none, none, [], none⟩]
  sentence_groups :=
    [⟨"Sentences", none, none,
      [.forAll [⟨"x", none⟩, ⟨"y", none⟩]
        (.implies (mkAtom "Link" [aVar "x", aVar "y"])
          (mkAtom "Path" [aVar "x", aVar "y"]))]⟩]
  ground_terms := [mkAtom "Link" [aStr "CA", aStr "OR"]]

/-- The repository's own paths axiom (Prolog snapshot line 11), whose
variables are named `source`/`target`: rendered
`path(Source, Target) :- link(Source, Target).` -/
def pathsRepoSentence : Sentence :=
  .forAll [⟨"source", none⟩, ⟨"target", none⟩]
    (.implies (mkAtom "Link" [aVar "source", aVar "target"])
      (mkAtom "Path" [aVar "source", aVar "target"]))

/-! ## Ladder-flattening lemmas -/

theorem flattenBranches_length (pre : List Lit) (br : List (Sentence × Sentence))
    (e : Sentence) : (flattenBranches pre br e).length = br.length + 1 := by
  induction br with
  | nil => rfl
  | cons b br ih =>
      obtain ⟨c, h⟩ := b
      simp [flattenBranches, ih]

theorem flattenBranches_branch (pre : List Lit) :
    ∀ (br : List (Sentence × Sentence)) (e : Sentence) (i : Nat) (h : i < br.length),
      (flattenBranches pre br e)[i]? =
        some ⟨some (br.get ⟨i, h⟩).2,
          pre ++ [Lit.pos (br.get ⟨i, h⟩).1]
            ++ ((br.take i).reverse.map fun b => Lit.neg b.1)⟩ := by
  intro br
  induction br with
  | nil => intro e i h; exact absurd h (Nat.not_lt_zero i)
  | cons b br ih =>
      obtain ⟨c, hd⟩ := b
      intro e i h
      cases i with
      | zero => simp [flattenBranches]
      | succ i =>
          have h' : i < br.length := Nat.lt_of_succ_lt_succ h
          rw [flattenBranches]
          rw [List.getElem?_cons_succ, List.getElem?_map, ih e i h']
          simp [negAdd, List.take_succ_cons, List.append_assoc]

theorem flattenBranches_else (pre : List Lit) :
    ∀ (br : List (Sentence × Sentence)) (e : Sentence),
      (flattenBranches pre br e)[br.length]? =
        some ⟨some e, pre ++ (br.reverse.map fun b => Lit.neg b.1)⟩ := by
  intro br
  induction br with
  | nil => intro e; simp [flattenBranches]
  | cons b br ih =>
      obtain ⟨c, hd⟩ := b
      intro e
      rw [flattenBranches]
      rw [List.length_cons, List.getElem?_cons_succ, List.getElem?_map, ih e]
      simp [negAdd, List.append_assoc]

theorem parseLadder_ladderSentence :
    ∀ (br : List (Sentence × Sentence)) (c h e : Sentence), parseLadder e = none →
      parseLadder (ladderSentence ((c, h) :: br) e) = some ((c, h) :: br, e) := by
  intro br
  induction br with
  | nil =>
      intro c h e he
      simp [ladderSentence, parseLadder, he]
  | cons b br ih =>
      obtain ⟨c2, h2⟩ := b
      intro c h e he
      rw [ladderSentence, parseLadder]
      simp only [if_pos rfl]
      rw [ih c2 h2 e he]
      simp

theorem normalize_ladder (sc : Bool) (vs : List Binder) (b : Sentence)
    (pre : List Lit) (br : List (Sentence × Sentence)) (e : Sentence)
    (hb : bodyLits b = some pre) (hbr : br ≠ []) (he : parseLadder e = none) :
    normalizeSentence sc (.forAll vs (.implies b (ladderSentence br e)))
      = .ok (flattenBranches pre br e) := by
  match br, hbr with
  | (c, h) :: br, _ =>
      rw [normalizeSentence, normalizeSentence, hb,
        parseLadder_ladderSentence br c h e he]

/-- C1.  For every sentence of guarded-ladder shape — `n` guarded branches
(optionally under shared preconditions) whose else is the next guarded
branch — the clause normalizer produces exactly `n` flat clauses: the clause
of branch `i` has head `H_i` and body the shared preconditions, then the
positive guard `C_i`, then the negations of every earlier guard, and the
else clause negates every guard; in particular spec §8's three-branch
Scenario C ladder (guards `v >= 90` and `v >= 60`) flattens to three clauses
with bodies `[v>=90]`, `[v>=60, ¬(v>=90)]` and `[¬(v>=60), ¬(v>=90)]`.
The last conjunct exhibits the divergence of the reference implementation:
on the EHR `ckd_from_egfr` ladder the correct flattening differs from the
five clause lines the committed Prolog snapshot records (which give clauses
2–5 the head `Value >= 90`). -/
theorem c1_guarded_ladder_flattening :
    (∀ (pre : List Lit) (br : List (Sentence × Sentence)) (e : Sentence),
      (flattenBranches pre br e).length = br.length + 1)
  ∧ (∀ (pre : List Lit) (br : List (Sentence × Sentence)) (e : Sentence)
      (i : Nat) (h : i < br.length),
      (flattenBranches pre br e)[i]? =
        some ⟨some (br.get ⟨i, h⟩).2,
          pre ++ [Lit.pos (br.get ⟨i, h⟩).1]
            ++ ((br.take i).reverse.map fun b => Lit.neg b.1)⟩)
  ∧ (∀ (pre : List Lit) (br : List (Sentence × Sentence)) (e : Sentence),
      (flattenBranches pre br e)[br.length]? =
        some ⟨some e, pre ++ (br.reverse.map fun b => Lit.neg b.1)⟩)
  ∧ (∀ (sc : Bool) (vs : List Binder) (b : Sentence) (pre : List Lit)
      (br : List (Sentence × Sentence)) (e : Sentence),
      bodyLits b = some pre → br ≠ [] → parseLadder e = none →
      normalizeSentence sc (.forAll vs (.implies b (ladderSentence br e)))
        = .ok (flattenBranches pre br e))
  ∧ normalizeSentence false scenarioCSentence = .ok
      [⟨some (scStage 1), [.pos (scGuard 90)]⟩,
       ⟨some (scStage 2), [.pos (scGuard 60), .neg (scGuard 90)]⟩,
       ⟨some (scStage 3), [.neg (scGuard 60), .neg (scGuard 90)]⟩]
  ∧ normalizeSentence false ckdEgfrSentence
      = .ok (flattenBranches ckdPre ckdBranches ckdElse)
  ∧ (flattenBranches ckdPre ckdBranches ckdElse).map prologClause ≠ part009CkdLines
  ∧ part009CkdClauses.map prologClause = part009CkdLines := by
  refine ⟨flattenBranches_length, flattenBranches_branch, flattenBranches_else,
    normalize_ladder, rfl, rfl, by decide, by decide⟩

/-- C1 witness: the universally quantified conjuncts of
`c1_guarded_ladder_flattening` applied at the concrete Scenario C ladder,
discharging every hypothesis there. -/
theorem c1_guarded_ladder_flattening_witness :
    (flattenBranches [] [(scGuard 90, scStage 1), (scGuard 60, scStage 2)]
      (scStage 3)).length = 3
  ∧ (flattenBranches [] [(scGuard 90, scStage 1), (scGuard 60, scStage 2)]
      (scStage 3))[1]? =
      some ⟨some (scStage 2), [] ++ [Lit.pos (scGuard 60)] ++ [Lit.neg (scGuard 90)]⟩
  ∧ normalizeSentence false
      (.forAll [] (.implies (mkAnd [])
        (ladderSentence [(scGuard 90, scStage 1), (scGuard 60, scStage 2)] (scStage 3))))
      = .ok (flattenBranches [] [(scGuard 90, scStage 1), (scGuard 60, scStage 2)]
          (scStage 3)) := by
  refine ⟨c1_guarded_ladder_flattening.1 _ _ _, ?_, ?_⟩
  · have h := c1_guarded_ladder_flattening.2.1
      [] [(scGuard 90, scStage 1), (scGuard 60, scStage 2)] (scStage 3) 1 (by decide)
    simpa using h
  · exact c1_guarded_ladder_flattening.2.2.2.1 false [] (mkAnd [])
      [] [(scGuard 90, scStage 1), (scGuard 60, scStage 2)] (scStage 3)
      (by decide) (by decide) (by decide)

/-- C2.  For an n-branch guarded ladder compiled to n flat clauses by the
normalizer, under every truth assignment to the guard predicates at most one
emitted clause body is satisfiable; but the clauses the reference
implementation actually emitted for the EHR `ckd_from_egfr` ladder (Prolog
snapshot lines 44–48) violate this: under the assignment of an eGFR reading
of 95 two of the five recorded bodies hold at once. -/
theorem c2_ladder_mutual_exclusivity :
    (∀ (v : Sentence → Bool) (pre : List Lit) (br : List (Sentence × Sentence))
      (e : Sentence), countSat v (flattenBranches pre br e) ≤ 1)
  ∧ countSat egfr95Valuation part009CkdClauses = 2
  ∧ part009CkdClauses.map prologClause = part009CkdLines := by
  exact ⟨countSat_le_one, by decide, by decide⟩

/-! ## Error-handling lemmas (spec §7) -/

theorem clausesOfSentences_append (sc : Bool) (gname : String) (l1 l2 : List Sentence) :
    clausesOfSentences sc gname (l1 ++ l2)
      = ((clausesOfSentences sc gname l1).1 ++ (clausesOfSentences sc gname l2).1,
         (clausesOfSentences sc gname l1).2 ++ (clausesOfSentences sc gname l2).2) := by
  induction l1 with
  | nil => simp [clausesOfSentences]
  | cons s t ih =>
      simp only [List.cons_append, clausesOfSentences]
      cases normalizeSentence sc s <;> simp [ih]

theorem mem_diags_of_error (sc : Bool) (gname : String) (s : Sentence)
    (e : NormError) (he : normalizeSentence sc s = .error e) :
    ∀ (l : List Sentence), s ∈ l → (⟨gname, s, e⟩ : Diag) ∈ (clausesOfSentences sc gname l).2 := by
  intro l
  induction l with
  | nil => intro h; cases h
  | cons a t ih =>
      intro hmem
      rw [clausesOfSentences]
      rcases List.mem_cons.mp hmem with rfl | hmem
      · rw [he]; exact List.mem_cons_self _ _
      · cases h : normalizeSentence sc a <;> simp only [] <;>
          [exact List.mem_cons_of_mem _ (ih hmem); exact ih hmem]

theorem mem_theory_diags (sc : Bool) (T : Theory) (g : SentenceGroup) (d : Diag)
    (hg : g ∈ T.sentence_groups)
    (hd : d ∈ (clausesOfSentences sc g.name g.sentences).2) :
    d ∈ (compileTheoryClauses sc T).2 := by
  have : ∀ (gs : List SentenceGroup), g ∈ gs →
      d ∈ ((gs.map fun g => clausesOfSentences sc g.name g.sentences).foldr
        (fun p acc => (p.1 ++ acc.1, p.2 ++ acc.2)) ([], [])).2 := by
    intro gs
    induction gs with
    | nil => intro h; cases h
    | cons a t ih =>
        intro hmem
        rcases List.mem_cons.mp hmem with rfl | hmem
        · exact List.mem_append_left _ hd
        · exact List.mem_append_right _ (ih hmem)
  exact this T.sentence_groups hg

/-- C4.  Normalization failure is never silent and never spreads: every
sentence of a Theory either normalizes to clauses or yields a diagnostic
recording the offending group and sentence in the compiled Theory's
diagnostic list; a failing sentence changes nothing in the emitted clauses
of the remaining sentences, its diagnostic slotting in between its
neighbours' output.  Concretely, in the mortals theory the Prolog target
(no headless-constraint form) rejects the acyclicity axiom — a `Not`
wrapping a full conjunction — with `UnsupportedNegationShape` and records
exactly that diagnostic while the other three sentences still compile,
whereas the ProbLog target (constraints supported) emits it as the headless
clause `:- ancestorof(X, Y), ancestorof(Y, X).`. -/
theorem c4_no_silent_drop_partial_success :
    (∀ (sc : Bool) (T : Theory) (g : SentenceGroup) (s : Sentence),
      g ∈ T.sentence_groups → s ∈ g.sentences →
      (∃ cls, normalizeSentence sc s = .ok cls)
      ∨ (∃ e, normalizeSentence sc s = .error e
          ∧ (⟨g.name, s, e⟩ : Diag) ∈ (compileTheoryClauses sc T).2))
  ∧ (∀ (sc : Bool) (gname : String) (pre suf : List Sentence) (s : Sentence)
      (e : NormError), normalizeSentence sc s = .error e →
      (clausesOfSentences sc gname (pre ++ s :: suf)).1
        = (clausesOfSentences sc gname (pre ++ suf)).1
      ∧ (clausesOfSentences sc gname (pre ++ s :: suf)).2
        = (clausesOfSentences sc gname pre).2
            ++ ⟨gname, s, e⟩ :: (clausesOfSentences sc gname suf).2)
  ∧ (compileTheoryClauses false mortalsTheory).2
      = [⟨"acyclicity_axiom",
          .forAll [⟨"x", some "TreeNodeType"⟩, ⟨"y", some "TreeNodeType"⟩]
            (.not (mkAnd [ancV "x" "y", ancV "y" "x"])),
          .unsupportedNegationShape⟩]
  ∧ prologProgram mortalsTheory
      = ["mortal(X) :- person(X).",
         "ancestorof(X, Y) :- ancestorof(X, Z), ancestorof(Z, Y).",
         "ancestorof('p1', 'p3') :- ancestorof('p1', 'p2'), ancestorof('p2', 'p3')."]
  ∧ problogProgram mortalsTheory
      = ["mortal(X) :- person(X).",
         "ancestorof(X, Y) :- ancestorof(X, Z), ancestorof(Z, Y).",
         ":- ancestorof(X, Y), ancestorof(Y, X).",
         "ancestorof(\"p1\", \"p3\") :- ancestorof(\"p1\", \"p2\"), ancestorof(\"p2\", \"p3\")."] := by
  refine ⟨?_, ?_, by decide, by decide, by decide⟩
  · intro sc T g s hg hs
    cases h : normalizeSentence sc s with
    | ok cls => exact Or.inl ⟨cls, rfl⟩
    | error e =>
        exact Or.inr ⟨e, rfl,
          mem_theory_diags sc T g _ hg (mem_diags_of_error sc g.name s e h g.sentences hs)⟩
  · intro sc gname pre suf s e he
    have h3 : clausesOfSentences sc gname (s :: suf)
        = ((clausesOfSentences sc gname suf).1,
           ⟨gname, s, e⟩ :: (clausesOfSentences sc gname suf).2) := by
      simp only [clausesOfSentences, he]
    rw [clausesOfSentences_append sc gname pre (s :: suf),
      clausesOfSentences_append sc gname pre suf, h3]
    exact ⟨rfl, rfl⟩

/-- C4 witness: the dichotomy and locality parts of
`c4_no_silent_drop_partial_success` applied to the mortals theory's
acyclicity axiom, every hypothesis discharged at that concrete input. -/
theorem c4_no_silent_drop_partial_success_witness :
    ((∃ cls, normalizeSentence false
        (.forAll [⟨"x", some "TreeNodeType"⟩, ⟨"y", some "TreeNodeType"⟩]
          (.not (mkAnd [ancV "x" "y", ancV "y" "x"]))) = .ok cls)
      ∨ (∃ e, normalizeSentence false
          (.forAll [⟨"x", some "TreeNodeType"⟩, ⟨"y", some "TreeNodeType"⟩]
            (.not (mkAnd [ancV "x" "y", ancV "y" "x"]))) = .error e
          ∧ (⟨"acyclicity_axiom",
              .forAll [⟨"x", some "TreeNodeType"⟩, ⟨"y", some "TreeNodeType"⟩]
                (.not (mkAnd [ancV "x" "y", ancV "y" "x"])), e⟩ : Diag)
            ∈ (compileTheoryClauses false mortalsTheory).2))
  ∧ (clausesOfSentences false "g"
        ([mkAtom "P" [aStr "a"]] ++ .not (mkAtom "P" [aStr "a"]) :: [])).1
      = (clausesOfSentences false "g" ([mkAtom "P" [aStr "a"]] ++ [])).1 := by
  refine ⟨?_, ?_⟩
  · exact c4_no_silent_drop_partial_success.1 false mortalsTheory
      ⟨"acyclicity_axiom", some "axiom", none,
        [.forAll [⟨"x", some "TreeNodeType"⟩, ⟨"y", some "TreeNodeType"⟩]
          (.not (mkAnd [ancV "x" "y", ancV "y" "x"]))]⟩ _
      (by decide) (by decide)
  · exact (c4_no_silent_drop_partial_success.2.1 false "g"
      [mkAtom "P" [aStr "a"]] [] (.not (mkAtom "P" [aStr "a"]))
      .unsupportedNegationShape (by decide)).1

/-! ## C5: ProbLog versus Prolog rendering of ordinary clauses -/

/-- Whether a clause body holds no negated literal. -/
def negFreeBody (body : List Lit) : Bool :=
  body.all fun l => match l with
    | .pos _ => true
    | .neg _ => false

/-- The mortals `check_transitivity` goal sentence as one flat clause. -/
def checkTransClause : Clause :=
  ⟨some (ancC "p1" "p3"), [.pos (ancC "p1" "p2"), .pos (ancC "p2" "p3")]⟩

/-- The linkml `invalid_class_slot` axiom as one flat clause (positive
class/slot conjuncts, negated `ClassSlot`). -/
def icsClause : Clause :=
  ⟨some (mkAtom "InvalidClassSlot" [aVar "cls", aVar "slot"]),
   [.pos (mkAtom "ClassDefinition" [aVar "cls"]),
    .pos (mkAtom "SlotDefinition" [aVar "slot"]),
    .neg (mkAtom "ClassSlot" [aVar "cls", aVar "slot"])]⟩

/-- C5 counterexample.  The ProbLog emitter does not render an ordinary
clause with exactly the Prolog emitter's text: on the mortals
`check_transitivity` clause Prolog single-quotes the constants and ProbLog
double-quotes them (both strings exactly as in the committed snapshots), so
the two texts differ. -/
theorem c5_counterexample_quoting :
    prologClause checkTransClause
      = "ancestorof('p1', 'p3') :- ancestorof('p1', 'p2'), ancestorof('p2', 'p3')."
  ∧ problogClause checkTransClause
      = "ancestorof(\"p1\", \"p3\") :- ancestorof(\"p1\", \"p2\"), ancestorof(\"p2\", \"p3\")."
  ∧ prologClause checkTransClause ≠ problogClause checkTransClause := by
  refine ⟨by decide, by decide, by decide⟩

/-- C5 (amended).  For every ordinary clause whose body holds no negated
literal, ProbLog and Prolog render the same clause shape, differing only in
the constant-rendering convention (ProbLog double-quotes string constants
where Prolog single-quotes them): both emitters equal the shared renderer
instantiated at their constant convention.  A clause with a negated body
literal additionally diverges: Prolog keeps `\+` in the body while ProbLog
moves the negated atom into a disjunctive head, as the linkml
`invalid_class_slot` snapshots show. -/
theorem c5_problog_prolog_rendering :
    (∀ cl : Clause, negFreeBody cl.body = true →
      problogClause cl = commonClause problogConst cl
      ∧ prologClause cl = commonClause prologConst cl)
  ∧ normalizeSentence false invalidClassSlotSentence = .ok [icsClause]
  ∧ prologClause icsClause
      = "invalidclassslot(Cls, Slot) :- classdefinition(Cls), slotdefinition(Slot), \\+ (classslot(Cls, Slot))."
  ∧ problogClause icsClause
      = "classslot(Cls, Slot); invalidclassslot(Cls, Slot) :- classdefinition(Cls), slotdefinition(Slot)." := by
  refine ⟨?_, rfl, by decide, by decide⟩
  intro cl h
  have hnegs : (cl.body.filterMap fun l => match l with
      | .neg a => some a
      | .pos _ => none) = [] := by
    refine List.filterMap_eq_nil_iff.mpr fun l hl => ?_
    have := List.all_eq_true.mp h l hl
    cases l with
    | pos a => rfl
    | neg a => exact absurd this (by simp)
  constructor
  · rw [problogClause]
    simp only [hnegs]
  · rfl

/-- C5 witness: the shared-renderer equations of
`c5_problog_prolog_rendering` applied to the negation-free
`check_transitivity` clause. -/
theorem c5_problog_prolog_rendering_witness :
    problogClause checkTransClause = commonClause problogConst checkTransClause
  ∧ prologClause checkTransClause = commonClause prologConst checkTransClause :=
  c5_problog_prolog_rendering.1 checkTransClause (by decide)

/-- C6.  Scenario A (spec §8): the Link/Path theory — predicate
`Link(source,target)`, the axiom `Forall([x,y], Implies(Link(x,y),
Path(x,y)))` and the ground fact `Link("CA","OR")` — compiles under the
Prolog emitter to exactly the clause `path(X, Y) :- link(X, Y).` and the
ground-fact line `link('CA', 'OR').`. -/
theorem c6_scenario_a_prolog :
    prologProgram scenarioATheory
      = ["path(X, Y) :- link(X, Y).", "link('CA', 'OR')."] := by decide

/-- Model-validation anchor: the repository's own paths theory names the
axiom's variables `source`/`target`, and the emitter model reproduces the
committed snapshot line `path(Source, Target) :- link(Source, Target).`
verbatim. -/
theorem paths_repo_snapshot_anchor :
    (normalizeSentence false pathsRepoSentence).map (List.map prologClause)
      = .ok ["path(Source, Target) :- link(Source, Target)."] := by decide

/-! ## C7: exact rationals in the FOL-prover emissions -/

/-- Modelled from the spec: the exact rational `n/d` in lowest terms whose
value is the decimal literal `m / 10 ^ (k + 1)`: both parts divided by
their greatest common divisor. -/
def floatToRational (m : Int) (k : Nat) : Int × Nat :=
  let d := 10 ^ (k + 1)
  let g := Nat.gcd m.natAbs d
  (m / (g : Int), d / g)

/-- The `rational(n,d)` text of a decimal literal in the TPTP and Prover9
emissions. -/
def rationalText (m : Int) (k : Nat) : String :=
  "rational(" ++ Int.repr (floatToRational m k).1 ++ ","
    ++ Nat.repr (floatToRational m k).2 ++ ")"

/-- Modelled from the spec: the numeric-literal encoding shared by the
TPTP and Prover9 emitters — integers unchanged, decimal literals as exact
rationals. -/
def foNumericText : Const → Option String
  | .int n => some (Int.repr n)
  | .dec m k => some (rationalText m k)
  | _ => none

/-- Prover9 constant rendering (anchored to the ehr_phenotyping Prover9
snapshot): integers unchanged, decimals as `rational(n,d)`, strings
prefixed `s_` when they start with a lowercase letter (which Prover9 would
otherwise read as a variable), null as `null`. -/
def prover9Const : Const → String
  | .str s =>
      match s.data with
      | c :: _ => if c.isLower then "s_" ++ s else s
      | [] => s
  | .int n => Int.repr n
  | .dec m k => rationalText m k
  | .bool b => if b then "true" else "false"
  | .null => "null"

/-- C7.  Every floating-point numeric literal in the TPTP/Prover9 emissions
becomes an exact rational `rational(n,d)` in lowest terms with
`n/d = m/10^(k+1)` exactly, while integer literals are emitted unchanged;
the concrete conversions match the ehr_phenotyping Prover9 snapshot
(`6.5 ↦ rational(13,2)`, `0.9 ↦ rational(9,10)`, `0.8 ↦ rational(4,5)`,
`0.95 ↦ rational(19,20)`, `1.0 ↦ rational(1,1)`, …). -/
theorem c7_exact_rational_literals :
    (∀ (m : Int) (k : Nat),
      ((floatToRational m k).1 : ℚ) / ((floatToRational m k).2 : ℚ)
          = (m : ℚ) / (10 : ℚ) ^ (k + 1)
      ∧ (floatToRational m k).2 ≠ 0
      ∧ Nat.Coprime (floatToRational m k).1.natAbs (floatToRational m k).2)
  ∧ (∀ n : Int, foNumericText (.int n) = some (Int.repr n)
      ∧ prover9Const (.int n) = Int.repr n)
  ∧ (∀ (m : Int) (k : Nat), foNumericText (.dec m k) = some (rationalText m k)
      ∧ prover9Const (.dec m k) = rationalText m k)
  ∧ prover9Const (.dec 65 0) = "rational(13,2)"
  ∧ prover9Const (.dec 9 0) = "rational(9,10)"
  ∧ prover9Const (.dec 7 0) = "rational(7,10)"
  ∧ prover9Const (.dec 8 0) = "rational(4,5)"
  ∧ prover9Const (.dec 95 1) = "rational(19,20)"
  ∧ prover9Const (.dec 5 0) = "rational(1,2)"
  ∧ prover9Const (.dec 99 1) = "rational(99,100)"
  ∧ prover9Const (.dec 10 0) = "rational(1,1)"
  ∧ prover9Const (.int 140) = "140" ∧ prover9Const (.int 90) = "90" := by
  refine ⟨?_, fun n => ⟨rfl, rfl⟩, fun m k => ⟨rfl, rfl⟩,
    by decide, by decide, by decide, by decide, by decide, by decide,
    by decide, by decide, by decide, by decide⟩
  intro m k
  have hdpos : 0 < 10 ^ (k + 1) := pow_pos (by norm_num) _
  have hg : 0 < Nat.gcd m.natAbs (10 ^ (k + 1)) :=
    Nat.gcd_pos_of_pos_right _ hdpos
  have hgd : Nat.gcd m.natAbs (10 ^ (k + 1)) ∣ 10 ^ (k + 1) :=
    Nat.gcd_dvd_right _ _
  have hgm : ((Nat.gcd m.natAbs (10 ^ (k + 1)) : Int)) ∣ m :=
    dvd_trans (Int.ofNat_dvd.mpr (Nat.gcd_dvd_left _ _))
      (Int.natAbs_dvd.mpr dvd_rfl)
  have hgq : ((Nat.gcd m.natAbs (10 ^ (k + 1)) : Int) : ℚ) ≠ 0 := by
    exact_mod_cast hg.ne'
  have hgq' : ((Nat.gcd m.natAbs (10 ^ (k + 1)) : Nat) : ℚ) ≠ 0 := by
    exact_mod_cast hg.ne'
  refine ⟨?_, ?_, ?_⟩
  · show ((m / (Nat.gcd m.natAbs (10 ^ (k + 1)) : Int) : Int) : ℚ)
        / ((10 ^ (k + 1) / Nat.gcd m.natAbs (10 ^ (k + 1)) : Nat) : ℚ)
        = (m : ℚ) / (10 : ℚ) ^ (k + 1)
    rw [Int.cast_div hgm hgq, Nat.cast_div hgd hgq']
    have h10 : ((10 : ℚ)) ^ (k + 1) ≠ 0 := pow_ne_zero _ (by norm_num)
    push_cast
    field_simp
  · show (10 ^ (k + 1) / Nat.gcd m.natAbs (10 ^ (k + 1)) : Nat) ≠ 0
    exact (Nat.div_pos (Nat.le_of_dvd hdpos hgd) hg).ne'
  · show Nat.Coprime (m / (Nat.gcd m.natAbs (10 ^ (k + 1)) : Int)).natAbs
      (10 ^ (k + 1) / Nat.gcd m.natAbs (10 ^ (k + 1)))
    rw [Int.natAbs_ediv m _ hgm, Int.natAbs_ofNat]
    exact Nat.coprime_div_gcd_div_gcd hg

/-! ## C8: negation rendering across backends -/

/-- The barbers sentence as one flat clause. -/
def barbersClause : Clause :=
  ⟨some (mkAtom "Shaves" [aVar "shaver", aVar "customer"]),
   [.pos (mkAtom "Barber" [aVar "shaver"]),
    .pos (mkAtom "Person" [aVar "customer"]),
    .neg (mkAtom "Shaves" [aVar "customer", aVar "customer"])]⟩

/-- C8.  For the same negated body literal `Not(Term("p", x))`, the Prolog
emitter renders `\+ (p(X))` and the Souffle emitter renders the literal with
Datalog's negation token `!`; the full clause lines reproduce the barbers
Prolog snapshot and the linkml Souffle snapshot verbatim. -/
theorem c8_negation_rendering :
    (∀ a : Sentence, prologLit (Lit.neg a) = "\\+ (" ++ renderAtom prologCfg a ++ ")"
      ∧ souffleLit (Lit.neg a) = "! (" ++ renderAtom souffleCfg a ++ ")")
  ∧ prologLit (.neg (mkAtom "p" [aVar "x"])) = "\\+ (p(X))"
  ∧ souffleLit (.neg (mkAtom "p" [aVar "x"])) = "! (p(x))"
  ∧ normalizeSentence false barbersSentence = .ok [barbersClause]
  ∧ prologClause barbersClause
      = "shaves(Shaver, Customer) :- barber(Shaver), person(Customer), \\+ (shaves(Customer, Customer))."
  ∧ souffleClause icsClause
      = "InvalidClassSlot(cls, slot) :- ClassDefinition(cls), SlotDefinition(slot), ! (ClassSlot(cls, slot))." := by
  exact ⟨fun a => ⟨rfl, rfl⟩, by decide, by decide, rfl, by decide, by decide⟩

/-! ## C9: Prolog identifier conventions -/

/-- The quoting rule the claim states: single-quote a string constant when,
and only when, it contains a character outside the identifier alphabet. -/
def claimQuoteConst (s : String) : String :=
  if s.data.all (fun c => c.isAlphanum || c == '_') then s
  else "'" ++ s ++ "'"

/-- C9 counterexample.  The animals snapshot quotes identifier-only
constants: the emitted program (reproduced verbatim from the snapshot)
renders `Animal("corky","cat")` as `animal('corky', 'cat').`, whereas the
claimed only-when-non-identifier rule would leave `corky` unquoted, so the
claimed rule disagrees with the code's rendering. -/
theorem c9_counterexample_identifier_quoting :
    prologProgram animalsTheory
      = ["person('Fred').", "person('Jie').", "animal('corky', 'cat').",
         "animal('fido', 'dog').", "likes(X, 'Fred') :- animal(X, Species).",
         "likes(X, 'Jie') :- animal(X, 'cat')."]
  ∧ claimQuoteConst "corky" = "corky"
  ∧ prologConst (.str "corky") = "'corky'"
  ∧ prologConst (.str "corky") ≠ claimQuoteConst "corky" := by
  refine ⟨by decide, by decide, by decide, by decide⟩

/-- C9 (amended).  In the Prolog emission, logic variables are rendered
upper-camel, atom and predicate names are lowercased, and every
string/symbol constant is single-quoted — identifier-only constants
included — as the animals and ehr snapshots show. -/
theorem c9_prolog_conventions :
    (∀ (n : String) (ty : Option String), renderArg prologCfg (.var n ty) = upperCamel n)
  ∧ (∀ s : String, prologConst (.str s) = "'" ++ s ++ "'")
  ∧ (∀ p : String, renderAtom prologCfg (.atom p .nil) = lowerStr p)
  ∧ upperCamel "patient_id" = "Patient_id"
  ∧ upperCamel "x" = "X"
  ∧ lowerStr "AncestorOf" = "ancestorof"
  ∧ prologProgram animalsTheory
      = ["person('Fred').", "person('Jie').", "animal('corky', 'cat').",
         "animal('fido', 'dog').", "likes(X, 'Fred') :- animal(X, Species).",
         "likes(X, 'Jie') :- animal(X, 'cat')."] := by
  exact ⟨fun n ty => rfl, fun s => rfl, fun p => rfl,
    by decide, by decide, by decide, by decide⟩

/-! ## C10: goal-tagged groups compile as ordinary clauses -/

theorem compileTheoryClauses_retag (sc : Bool)
    (f : SentenceGroup → Option String) (T : Theory) :
    compileTheoryClauses sc (retagGroups f T) = compileTheoryClauses sc T := by
  simp only [compileTheoryClauses, retagGroups, List.map_map]
  rfl

/-- C10.  The clause-based emitters treat a goal-tagged SentenceGroup like
any other group: clause output is invariant under arbitrary retagging of
every group's kind tag, and concretely the mortals `check_transitivity`
goal group's ground implication is emitted as a regular rule alongside the
axiom clauses in both the Prolog and the ProbLog programs (matching the
committed snapshot lines), not omitted, partitioned or turned into a
query. -/
theorem c10_goal_groups_compile_ordinarily :
    (∀ (f : SentenceGroup → Option String) (T : Theory),
      prologProgram (retagGroups f T) = prologProgram T
      ∧ problogProgram (retagGroups f T) = problogProgram T)
  ∧ (mortalsTheory.sentence_groups.map fun g => g.group_type)
      = [some "axiom", some "axiom", some "axiom", some "goal"]
  ∧ prologProgram mortalsTheory
      = ["mortal(X) :- person(X).",
         "ancestorof(X, Y) :- ancestorof(X, Z), ancestorof(Z, Y).",
         "ancestorof('p1', 'p3') :- ancestorof('p1', 'p2'), ancestorof('p2', 'p3')."]
  ∧ problogProgram mortalsTheory
      = ["mortal(X) :- person(X).",
         "ancestorof(X, Y) :- ancestorof(X, Z), ancestorof(Z, Y).",
         ":- ancestorof(X, Y), ancestorof(Y, X).",
         "ancestorof(\"p1\", \"p3\") :- ancestorof(\"p1\", \"p2\"), ancestorof(\"p2\", \"p3\")."] := by
  refine ⟨fun f T => ⟨?_, ?_⟩, by decide, by decide, by decide⟩
  · simp [prologProgram, compileTheoryClauses_retag]
  · simp [problogProgram, compileTheoryClauses_retag]

/-! ## C3: the S-expression interchange format (spec §4.4 / §8 round trip)

The S-expression grammar, taken from the committed `.sexpr` snapshots, has
three atom shapes — double-quoted strings, numbers, bare symbols — and
parenthesized lists; a `Term` is encoded as a list headed by the bare
predicate symbol, every other variant by its reserved tag symbol. -/

mutual

/-- An S-expression: string atom, numeric atom (`num m 0` an integer,
`num m (k+1)` the decimal literal `m / 10 ^ (k+1)`), bare symbol, or list. -/
inductive SExpr where
  | str (s : String)
  | num (m : Int) (k : Nat)
  | sym (s : String)
  | list (xs : SExprs)
deriving DecidableEq, Repr

/-- An S-expression list, as its own inductive for structural recursion. -/
inductive SExprs where
  | nil
  | cons (hd : SExpr) (tl : SExprs)
deriving DecidableEq, Repr

end

/-- Build an `SExprs` value from a list. -/
def SExprs.ofList : List SExpr → SExprs
  | [] => .nil
  | x :: t => .cons x (SExprs.ofList t)

/-- The reserved head symbols of the S-expression encoding: every Sentence
variant's type tag.  A list headed by any other symbol is a `Term`. -/
def reservedTags : List String :=
  ["Variable", "Not", "And", "Or", "Implies", "Iff", "Forall", "Exists",
   "Probability", "Evidence"]

/-- Encode a literal constant (strings quoted, numbers as written, booleans
and null as bare symbols, exactly as in the snapshots). -/
def encodeConst : Const → SExpr
  | .str s => .str s
  | .int n => .num n 0
  | .dec m k => .num m (k + 1)
  | .bool b => .sym (if b then "true" else "false")
  | .null => .sym "null"

mutual

/-- Modelled from the spec: S-expression encoding of a term argument —
`(Variable "x")` / `(Variable "x" "ty")` for variables, the constant's atom,
`(functor arg…)` for nested structured terms. -/
def encodeArg : Arg → SExpr
  | .var n none => .list (.cons (.sym "Variable") (.cons (.str n) .nil))
  | .var n (some t) =>
      .list (.cons (.sym "Variable") (.cons (.str n) (.cons (.str t) .nil)))
  | .const c => encodeConst c
  | .app f args => .list (.cons (.sym f) (encodeArgs args))

/-- Encode an argument list. -/
def encodeArgs : Args → SExprs
  | .nil => .nil
  | .cons a t => .cons (encodeArg a) (encodeArgs t)

end

/-- Encode a quantifier binder: `(Variable "x")` or `(Variable "x" "ty")`. -/
def encodeBinder (b : Binder) : SExpr :=
  match b.ty with
  | none => .list (.cons (.sym "Variable") (.cons (.str b.name) .nil))
  | some t => .list (.cons (.sym "Variable") (.cons (.str b.name) (.cons (.str t) .nil)))

/-- Encode a binder list. -/
def encodeBinders : List Binder → SExprs
  | [] => .nil
  | b :: t => .cons (encodeBinder b) (encodeBinders t)

mutual

/-- Modelled from the spec: the type-tag-prefixed S-expression encoding of a
Sentence — a `Term` as `(pred arg…)`, every connective/quantifier/extension
under its reserved tag, as the snapshots show. -/
def encodeSentence : Sentence → SExpr
  | .atom p args => .list (.cons (.sym p) (encodeArgs args))
  | .not s => .list (.cons (.sym "Not") (.cons (encodeSentence s) .nil))
  | .and xs => .list (.cons (.sym "And") (encodeSentences xs))
  | .or xs => .list (.cons (.sym "Or") (encodeSentences xs))
  | .implies a b =>
      .list (.cons (.sym "Implies") (.cons (encodeSentence a) (.cons (encodeSentence b) .nil)))
  | .iff a b =>
      .list (.cons (.sym "Iff") (.cons (encodeSentence a) (.cons (encodeSentence b) .nil)))
  | .forAll vs body =>
      .list (.cons (.sym "Forall")
        (.cons (.list (encodeBinders vs)) (.cons (encodeSentence body) .nil)))
  | .exist vs body =>
      .list (.cons (.sym "Exists")
        (.cons (.list (encodeBinders vs)) (.cons (encodeSentence body) .nil)))
  | .prob p s =>
      .list (.cons (.sym "Probability") (.cons (encodeConst p) (.cons (encodeSentence s) .nil)))
  | .evid s pol =>
      .list (.cons (.sym "Evidence")
        (.cons (encodeSentence s) (.cons (encodeConst (.bool pol)) .nil)))

/-- Encode an `And`/`Or` operand list. -/
def encodeSentences : Sentences → SExprs
  | .nil => .nil
  | .cons s t => .cons (encodeSentence s) (encodeSentences t)

end

/-- Encode an optional string (`null` when absent). -/
def encodeOptStr : Option String → SExpr
  | none => .sym "null"
  | some s => .str s

/-- Encode one `(key "value")` dict entry. -/
def encodeStrPair (p : String × String) : SExpr :=
  .list (.cons (.sym p.1) (.cons (.str p.2) .nil))

/-- Encode a string-to-string dict body. -/
def encodeStrPairs : List (String × String) → SExprs
  | [] => .nil
  | p :: t => .cons (encodeStrPair p) (encodeStrPairs t)

/-- Encode a type-alias entry: a primitive as `(name "prim")`, a union as
`(name (alt₁ "alt₂" …))` (first alternative a bare symbol, the rest quoted,
as the defined_types snapshot shows). -/
def encodeTypeDef (p : String × TypeDef) : SExpr :=
  match p.2 with
  | .prim n => .list (.cons (.sym p.1) (.cons (.str n) .nil))
  | .union alts =>
      .list (.cons (.sym p.1)
        (.cons (.list (match alts with
          | [] => .nil
          | a :: rest => .cons (.sym a) (SExprs.ofList (rest.map SExpr.str)))) .nil))

/-- Encode the type-alias table. -/
def encodeTypeDefs : List (String × TypeDef) → SExprs
  | [] => .nil
  | p :: t => .cons (encodeTypeDef p) (encodeTypeDefs t)

/-- Encode a parent-predicate name list. -/
def encodeStrs : List String → SExprs
  | [] => .nil
  | s :: t => .cons (.str s) (encodeStrs t)

/-- Encode a PredicateDefinition record (field order as in the snapshots). -/
def encodePredDef (d : PredicateDefinition) : SExpr :=
  .list (.cons (.sym "PredicateDefinition")
    (.cons (.list (.cons (.sym "predicate") (.cons (.str d.predicate) .nil)))
    (.cons (.list (.cons (.sym "arguments")
      (.cons (.list (.cons (.sym "dict")
        (.cons (.list (encodeStrPairs d.arguments)) .nil))) .nil)))
    (.cons (.list (.cons (.sym "description") (.cons (encodeOptStr d.description) .nil)))
    (.cons (.list (.cons (.sym "metadata") (.cons (encodeOptStr d.metadata) .nil)))
    (.cons (.list (.cons (.sym "parents") (.cons (.list (encodeStrs d.parents)) .nil)))
    (.cons (.list (.cons (.sym "python_class") (.cons (encodeOptStr d.python_class) .nil)))
      .nil)))))))

/-- Encode the predicate-definition list. -/
def encodePredDefs : List PredicateDefinition → SExprs
  | [] => .nil
  | d :: t => .cons (encodePredDef d) (encodePredDefs t)

/-- Encode a sentence list. -/
def encodeSentenceList : List Sentence → SExprs
  | [] => .nil
  | s :: t => .cons (encodeSentence s) (encodeSentenceList t)

/-- Encode a SentenceGroup record. -/
def encodeGroup (g : SentenceGroup) : SExpr :=
  .list (.cons (.sym "SentenceGroup")
    (.cons (.list (.cons (.sym "name") (.cons (.str g.name) .nil)))
    (.cons (.list (.cons (.sym "group_type") (.cons (encodeOptStr g.group_type) .nil)))
    (.cons (.list (.cons (.sym "docstring") (.cons (encodeOptStr g.docstring) .nil)))
    (.cons (.list (.cons (.sym "sentences")
      (.cons (.list (encodeSentenceList g.sentences)) .nil)))
      .nil)))))

/-- Encode the group list. -/
def encodeGroups : List SentenceGroup → SExprs
  | [] => .nil
  | g :: t => .cons (encodeGroup g) (encodeGroups t)

/-- Modelled from the spec: the canonical S-expression serialization of a
whole Theory, `(Theory (name …) (constants (dict …)) (type_definitions
(dict …)) (predicate_definitions …) (sentence_groups …) (ground_terms …))`
exactly as the snapshot files lay it out (the snapshot's trailing
`_annotations`/`source_module_name` fields, always null in every snapshot
and outside the round-trip contract's field list, are not modelled). -/
def sexprTheory (T : Theory) : SExpr :=
  .list (.cons (.sym "Theory")
    (.cons (.list (.cons (.sym "name") (.cons (.str T.name) .nil)))
    (.cons (.list (.cons (.sym "constants")
      (.cons (.list (.cons (.sym "dict")
        (.cons (.list (encodeStrPairs T.constants)) .nil))) .nil)))
    (.cons (.list (.cons (.sym "type_definitions")
      (.cons (.list (.cons (.sym "dict")
        (.cons (.list (encodeTypeDefs T.type_definitions)) .nil))) .nil)))
    (.cons (.list (.cons (.sym "predicate_definitions")
      (.cons (.list (encodePredDefs T.predicate_definitions)) .nil)))
    (.cons (.list (.cons (.sym "sentence_groups")
      (.cons (.list (encodeGroups T.sentence_groups)) .nil)))
    (.cons (.list (.cons (.sym "ground_terms")
      (.cons (.list (encodeSentenceList T.ground_terms)) .nil)))
      .nil)))))))

/-! ### The S-expression reader -/

/-- Decode a constant atom. -/
def decodeConst : SExpr → Option Const
  | .str s => some (.str s)
  | .num m 0 => some (.int m)
  | .num m (k + 1) => some (.dec m k)
  | .sym "true" => some (.bool true)
  | .sym "false" => some (.bool false)
  | .sym "null" => some (.null)
  | _ => none

/-- Decode a boolean atom. -/
def decodeBool : SExpr → Option Bool
  | .sym "true" => some true
  | .sym "false" => some false
  | _ => none

/-- Decode the argument shape of a `Variable` list: one or two strings. -/
def decodeVarShape : SExprs → Option Arg
  | .cons (.str n) .nil => some (.var n none)
  | .cons (.str n) (.cons (.str t) .nil) => some (.var n (some t))
  | _ => none

mutual

/-- Modelled from the spec: the reader for term-argument position — the
inverse of `encodeArg`.  A list headed by `Variable` with one or two string
arguments is a variable; a list headed by any unreserved symbol is a nested
structured term; atoms are constants. -/
def decodeArg : SExpr → Option Arg
  | .list (.cons (.sym f) rest) =>
      if f = "Variable" then decodeVarShape rest
      else if f ∈ reservedTags then none
      else (decodeArgs rest).map (.app f)
  | .list _ => none
  | a => (decodeConst a).map .const

/-- Decode an argument list. -/
def decodeArgs : SExprs → Option Args
  | .nil => some .nil
  | .cons x t => do
      let a ← decodeArg x
      let r ← decodeArgs t
      pure (.cons a r)

end

/-- Decode a quantifier binder. -/
def decodeBinder : SExpr → Option Binder
  | .list (.cons (.sym "Variable") (.cons (.str n) .nil)) => some ⟨n, none⟩
  | .list (.cons (.sym "Variable") (.cons (.str n) (.cons (.str t) .nil))) =>
      some ⟨n, some t⟩
  | _ => none

/-- Decode a binder list. -/
def decodeBinders : SExprs → Option (List Binder)
  | .nil => some []
  | .cons x t => do
      let b ← decodeBinder x
      let r ← decodeBinders t
      pure (b :: r)

mutual

/-- Modelled from the spec: the reader for sentence position — the inverse
of `encodeSentence`.  Dispatch on the head symbol: the reserved variant
tags rebuild their connective, any other head is a `Term`. -/
def decodeSentence : SExpr → Option Sentence
  | .list (.cons (.sym f) rest) =>
      if f = "Not" then decodeNotShape rest
      else if f = "And" then (decodeSentences rest).map .and
      else if f = "Or" then (decodeSentences rest).map .or
      else if f = "Implies" then decodePairShape .implies rest
      else if f = "Iff" then decodePairShape .iff rest
      else if f = "Forall" then decodeQuantShape .forAll rest
      else if f = "Exists" then decodeQuantShape .exist rest
      else if f = "Probability" then decodeProbShape rest
      else if f = "Evidence" then decodeEvidShape rest
      else if f = "Variable" then none
      else (decodeArgs rest).map (.atom f)
  | _ => none

/-- Decode the operand of a `Not` list. -/
def decodeNotShape : SExprs → Option Sentence
  | .cons x .nil => (decodeSentence x).map .not
  | _ => none

/-- Decode the two operands of an `Implies`/`Iff` list. -/
def decodePairShape (k : Sentence → Sentence → Sentence) : SExprs → Option Sentence
  | .cons a (.cons b .nil) => do
      let x ← decodeSentence a
      let y ← decodeSentence b
      pure (k x y)
  | _ => none

/-- Decode the binder list and body of a `Forall`/`Exists` list. -/
def decodeQuantShape (k : List Binder → Sentence → Sentence) : SExprs → Option Sentence
  | .cons (.list vs) (.cons body .nil) => do
      let bs ← decodeBinders vs
      let s ← decodeSentence body
      pure (k bs s)
  | _ => none

/-- Decode the weight and operand of a `Probability` list. -/
def decodeProbShape : SExprs → Option Sentence
  | .cons p (.cons sx .nil) => do
      let c ← decodeConst p
      let s ← decodeSentence sx
      pure (.prob c s)
  | _ => none

/-- Decode the operand and polarity of an `Evidence` list. -/
def decodeEvidShape : SExprs → Option Sentence
  | .cons sx (.cons pol .nil) => do
      let s ← decodeSentence sx
      let b ← decodeBool pol
      pure (.evid s b)
  | _ => none

/-- Decode an `And`/`Or` operand list. -/
def decodeSentences : SExprs → Option Sentences
  | .nil => some .nil
  | .cons x t => do
      let s ← decodeSentence x
      let r ← decodeSentences t
      pure (.cons s r)

end

/-- Decode an optional string. -/
def decodeOptStr : SExpr → Option (Option String)
  | .sym "null" => some none
  | .str s => some (some s)
  | _ => none

/-- Decode one string-pair dict entry. -/
def decodeStrPair : SExpr → Option (String × String)
  | .list (.cons (.sym k) (.cons (.str v) .nil)) => some (k, v)
  | _ => none

/-- Decode a string-to-string dict body. -/
def decodeStrPairs : SExprs → Option (List (String × String))
  | .nil => some []
  | .cons x t => do
      let p ← decodeStrPair x
      let r ← decodeStrPairs t
      pure (p :: r)

/-- Decode a plain string list. -/
def decodeStrs : SExprs → Option (List String)
  | .nil => some []
  | .cons (.str s) t => do
      let r ← decodeStrs t
      pure (s :: r)
  | .cons _ _ => none

/-- Decode the tail of a union alternative list (quoted strings). -/
def decodeUnionRest : SExprs → Option (List String)
  | .nil => some []
  | .cons (.str s) t => do
      let r ← decodeUnionRest t
      pure (s :: r)
  | .cons _ _ => none

/-- Decode a type-alias entry. -/
def decodeTypeDef : SExpr → Option (String × TypeDef)
  | .list (.cons (.sym n) (.cons (.str p) .nil)) => some (n, .prim p)
  | .list (.cons (.sym n) (.cons (.list .nil) .nil)) => some (n, .union [])
  | .list (.cons (.sym n) (.cons (.list (.cons (.sym a) rest)) .nil)) => do
      let r ← decodeUnionRest rest
      pure (n, .union (a :: r))
  | _ => none

/-- Decode the type-alias table. -/
def decodeTypeDefs : SExprs → Option (List (String × TypeDef))
  | .nil => some []
  | .cons x t => do
      let p ← decodeTypeDef x
      let r ← decodeTypeDefs t
      pure (p :: r)

/-- Decode a PredicateDefinition record. -/
def decodePredDef : SExpr → Option PredicateDefinition
  | .list (.cons (.sym "PredicateDefinition")
      (.cons (.list (.cons (.sym "predicate") (.cons (.str pred) .nil)))
      (.cons (.list (.cons (.sym "arguments")
        (.cons (.list (.cons (.sym "dict") (.cons (.list argPairs) .nil))) .nil)))
      (.cons (.list (.cons (.sym "description") (.cons dsc .nil)))
      (.cons (.list (.cons (.sym "metadata") (.cons md .nil)))
      (.cons (.list (.cons (.sym "parents") (.cons (.list pars) .nil)))
      (.cons (.list (.cons (.sym "python_class") (.cons pc .nil)))
        .nil))))))) => do
      let args ← decodeStrPairs argPairs
      let d ← decodeOptStr dsc
      let m ← decodeOptStr md
      let ps ← decodeStrs pars
      let p ← decodeOptStr pc
      pure ⟨pred, args, d, m, ps, p⟩
  | _ => none

/-- Decode the predicate-definition list. -/
def decodePredDefs : SExprs → Option (List PredicateDefinition)
  | .nil => some []
  | .cons x t => do
      let d ← decodePredDef x
      let r ← decodePredDefs t
      pure (d :: r)

/-- Decode a sentence list. -/
def decodeSentenceList : SExprs → Option (List Sentence)
  | .nil => some []
  | .cons x t => do
      let s ← decodeSentence x
      let r ← decodeSentenceList t
      pure (s :: r)

/-- Decode a SentenceGroup record. -/
def decodeGroup : SExpr → Option SentenceGroup
  | .list (.cons (.sym "SentenceGroup")
      (.cons (.list (.cons (.sym "name") (.cons (.str n) .nil)))
      (.cons (.list (.cons (.sym "group_type") (.cons gt .nil)))
      (.cons (.list (.cons (.sym "docstring") (.cons ds .nil)))
      (.cons (.list (.cons (.sym "sentences") (.cons (.list ss) .nil)))
        .nil))))) => do
      let g ← decodeOptStr gt
      let d ← decodeOptStr ds
      let sents ← decodeSentenceList ss
      pure ⟨n, g, d, sents⟩
  | _ => none

/-- Decode the group list. -/
def decodeGroups : SExprs → Option (List SentenceGroup)
  | .nil => some []
  | .cons x t => do
      let g ← decodeGroup x
      let r ← decodeGroups t
      pure (g :: r)

/-- Modelled from the spec: the S-expression reader closing the round-trip
contract — the inverse of `sexprTheory`. -/
def readSexprTheory : SExpr → Option Theory
  | .list (.cons (.sym "Theory")
      (.cons (.list (.cons (.sym "name") (.cons (.str n) .nil)))
      (.cons (.list (.cons (.sym "constants")
        (.cons (.list (.cons (.sym "dict") (.cons (.list cs) .nil))) .nil)))
      (.cons (.list (.cons (.sym "type_definitions")
        (.cons (.list (.cons (.sym "dict") (.cons (.list tds) .nil))) .nil)))
      (.cons (.list (.cons (.sym "predicate_definitions") (.cons (.list pds) .nil)))
      (.cons (.list (.cons (.sym "sentence_groups") (.cons (.list gs) .nil)))
      (.cons (.list (.cons (.sym "ground_terms") (.cons (.list gts) .nil)))
        .nil))))))) => do
      let consts ← decodeStrPairs cs
      let tdefs ← decodeTypeDefs tds
      let pdefs ← decodePredDefs pds
      let groups ← decodeGroups gs
      let grounds ← decodeSentenceList gts
      pure ⟨n, consts, tdefs, pdefs, groups, grounds⟩
  | _ => none

/-! ### Reserved-tag freedom and the round-trip proof -/

mutual

/-- Whether a term argument uses no reserved variant tag as a functor name
(the S-expression `Term` encoding is only injective away from the tags). -/
def argRF : Arg → Bool
  | .var _ _ => true
  | .const _ => true
  | .app f args => decide (f ∉ reservedTags) && argsRF args

/-- Argument-list worker of `argRF`. -/
def argsRF : Args → Bool
  | .nil => true
  | .cons a t => argRF a && argsRF t

end

mutual

/-- Whether a sentence names no predicate or functor after a reserved
variant tag. -/
def sentRF : Sentence → Bool
  | .atom p args => decide (p ∉ reservedTags) && argsRF args
  | .not s => sentRF s
  | .and xs => sentsRF xs
  | .or xs => sentsRF xs
  | .implies a b => sentRF a && sentRF b
  | .iff a b => sentRF a && sentRF b
  | .forAll _ body => sentRF body
  | .exist _ body => sentRF body
  | .prob _ s => sentRF s
  | .evid s _ => sentRF s

/-- Operand-list worker of `sentRF`. -/
def sentsRF : Sentences → Bool
  | .nil => true
  | .cons s t => sentRF s && sentsRF t

end

/-- Reserved-tag freedom of a sentence list. -/
def sentListRF (l : List Sentence) : Bool := l.all sentRF

/-- Reserved-tag freedom of a whole Theory: every group sentence and ground
term avoids the reserved tags as predicate/functor names. -/
def theoryRF (T : Theory) : Bool :=
  (T.sentence_groups.all fun g => sentListRF g.sentences)
    && sentListRF T.ground_terms

theorem ne_of_not_reserved (f : String) (hf : f ∉ reservedTags) :
    f ≠ "Variable" ∧ f ≠ "Not" ∧ f ≠ "And" ∧ f ≠ "Or" ∧ f ≠ "Implies"
    ∧ f ≠ "Iff" ∧ f ≠ "Forall" ∧ f ≠ "Exists" ∧ f ≠ "Probability"
    ∧ f ≠ "Evidence" :=
  ⟨fun h => hf (by rw [h]; decide), fun h => hf (by rw [h]; decide),
   fun h => hf (by rw [h]; decide), fun h => hf (by rw [h]; decide),
   fun h => hf (by rw [h]; decide), fun h => hf (by rw [h]; decide),
   fun h => hf (by rw [h]; decide), fun h => hf (by rw [h]; decide),
   fun h => hf (by rw [h]; decide), fun h => hf (by rw [h]; decide)⟩

theorem decodeConst_encodeConst (c : Const) :
    decodeConst (encodeConst c) = some c := by
  cases c with
  | str s => rfl
  | int n => rfl
  | dec m k => rfl
  | bool b => cases b <;> rfl
  | null => rfl

mutual

theorem argRoundtrip : ∀ (a : Arg), argRF a = true → decodeArg (encodeArg a) = some a
  | .var n none, _ => rfl
  | .var n (some t), _ => rfl
  | .const c, _ => by
      have h := decodeConst_encodeConst c
      cases c with
      | str s => simp [encodeArg, encodeConst, decodeArg, decodeConst]
      | int n => simp [encodeArg, encodeConst, decodeArg, decodeConst]
      | dec m k => simp [encodeArg, encodeConst, decodeArg, decodeConst]
      | bool b => cases b <;> simp [encodeArg, encodeConst, decodeArg, decodeConst]
      | null => simp [encodeArg, encodeConst, decodeArg, decodeConst]
  | .app f args, h => by
      have hpair : (decide (f ∉ reservedTags) && argsRF args) = true := h
      have hres : f ∉ reservedTags :=
        of_decide_eq_true (Bool.and_eq_true .. |>.mp hpair).1
      have hargs : argsRF args = true := (Bool.and_eq_true .. |>.mp hpair).2
      have hne := ne_of_not_reserved f hres
      rw [encodeArg, decodeArg, if_neg hne.1, if_neg hres]
      simp [argsRoundtrip args hargs]

theorem argsRoundtrip : ∀ (l : Args), argsRF l = true → decodeArgs (encodeArgs l) = some l
  | .nil, _ => rfl
  | .cons a t, h => by
      have h1 : argRF a = true := (Bool.and_eq_true .. |>.mp h).1
      have h2 : argsRF t = true := (Bool.and_eq_true .. |>.mp h).2
      rw [encodeArgs, decodeArgs]
      rw [argRoundtrip a h1, argsRoundtrip t h2]
      rfl

end

theorem decodeBinder_encodeBinder (b : Binder) :
    decodeBinder (encodeBinder b) = some b := by
  obtain ⟨n, ty⟩ := b
  cases ty <;> rfl

theorem decodeBinders_encodeBinders (l : List Binder) :
    decodeBinders (encodeBinders l) = some l := by
  induction l with
  | nil => rfl
  | cons b t ih =>
      rw [encodeBinders, decodeBinders, decodeBinder_encodeBinder b, ih]
      rfl

mutual

theorem sentRoundtrip : ∀ (s : Sentence), sentRF s = true →
    decodeSentence (encodeSentence s) = some s
  | .atom p args, h => by
      have hres : p ∉ reservedTags :=
        of_decide_eq_true (Bool.and_eq_true .. |>.mp h).1
      have hargs : argsRF args = true := (Bool.and_eq_true .. |>.mp h).2
      have hne := ne_of_not_reserved p hres
      show (if p = "Not" then decodeNotShape (encodeArgs args)
        else if p = "And" then (decodeSentences (encodeArgs args)).map Sentence.and
        else if p = "Or" then (decodeSentences (encodeArgs args)).map Sentence.or
        else if p = "Implies" then decodePairShape Sentence.implies (encodeArgs args)
        else if p = "Iff" then decodePairShape Sentence.iff (encodeArgs args)
        else if p = "Forall" then decodeQuantShape Sentence.forAll (encodeArgs args)
        else if p = "Exists" then decodeQuantShape Sentence.exist (encodeArgs args)
        else if p = "Probability" then decodeProbShape (encodeArgs args)
        else if p = "Evidence" then decodeEvidShape (encodeArgs args)
        else if p = "Variable" then none
        else Option.map (Sentence.atom p) (decodeArgs (encodeArgs args))) = some (Sentence.atom p args)
      rw [if_neg hne.2.1, if_neg hne.2.2.1, if_neg hne.2.2.2.1,
        if_neg hne.2.2.2.2.1, if_neg hne.2.2.2.2.2.1, if_neg hne.2.2.2.2.2.2.1,
        if_neg hne.2.2.2.2.2.2.2.1, if_neg hne.2.2.2.2.2.2.2.2.1,
        if_neg hne.2.2.2.2.2.2.2.2.2, if_neg hne.1, argsRoundtrip args hargs]
      rfl
  | .not s, h => by
      show Option.map Sentence.not (decodeSentence (encodeSentence s)) = some (Sentence.not s)
      rw [sentRoundtrip s h]; rfl
  | .and xs, h => by
      show Option.map Sentence.and (decodeSentences (encodeSentences xs)) = some (Sentence.and xs)
      rw [sentsRoundtrip xs h]; rfl
  | .or xs, h => by
      show Option.map Sentence.or (decodeSentences (encodeSentences xs)) = some (Sentence.or xs)
      rw [sentsRoundtrip xs h]; rfl
  | .implies a b, h => by
      have h1 : sentRF a = true := (Bool.and_eq_true .. |>.mp h).1
      have h2 : sentRF b = true := (Bool.and_eq_true .. |>.mp h).2
      show (do
          let x ← decodeSentence (encodeSentence a)
          let y ← decodeSentence (encodeSentence b)
          pure (Sentence.implies x y)) = some (.implies a b)
      rw [sentRoundtrip a h1, sentRoundtrip b h2]; rfl
  | .iff a b, h => by
      have h1 : sentRF a = true := (Bool.and_eq_true .. |>.mp h).1
      have h2 : sentRF b = true := (Bool.and_eq_true .. |>.mp h).2
      show (do
          let x ← decodeSentence (encodeSentence a)
          let y ← decodeSentence (encodeSentence b)
          pure (Sentence.iff x y)) = some (.iff a b)
      rw [sentRoundtrip a h1, sentRoundtrip b h2]; rfl
  | .forAll vs body, h => by
      show (do
          let bs ← decodeBinders (encodeBinders vs)
          let s ← decodeSentence (encodeSentence body)
          pure (Sentence.forAll bs s)) = some (.forAll vs body)
      rw [decodeBinders_encodeBinders vs, sentRoundtrip body h]; rfl
  | .exist vs body, h => by
      show (do
          let bs ← decodeBinders (encodeBinders vs)
          let s ← decodeSentence (encodeSentence body)
          pure (Sentence.exist bs s)) = some (.exist vs body)
      rw [decodeBinders_encodeBinders vs, sentRoundtrip body h]; rfl
  | .prob p s, h => by
      show (do
          let c ← decodeConst (encodeConst p)
          let x ← decodeSentence (encodeSentence s)
          pure (Sentence.prob c x)) = some (.prob p s)
      rw [decodeConst_encodeConst p, sentRoundtrip s h]; rfl
  | .evid s pol, h => by
      show (do
          let x ← decodeSentence (encodeSentence s)
          let b ← decodeBool (encodeConst (.bool pol))
          pure (Sentence.evid x b)) = some (.evid s pol)
      rw [sentRoundtrip s h]
      cases pol <;> rfl

theorem sentsRoundtrip : ∀ (xs : Sentences), sentsRF xs = true →
    decodeSentences (encodeSentences xs) = some xs
  | .nil, _ => rfl
  | .cons s t, h => by
      have h1 : sentRF s = true := (Bool.and_eq_true .. |>.mp h).1
      have h2 : sentsRF t = true := (Bool.and_eq_true .. |>.mp h).2
      show (do
          let x ← decodeSentence (encodeSentence s)
          let r ← decodeSentences (encodeSentences t)
          pure (Sentences.cons x r)) = some (.cons s t)
      rw [sentRoundtrip s h1, sentsRoundtrip t h2]; rfl

end

theorem decodeOptStr_encodeOptStr (o : Option String) :
    decodeOptStr (encodeOptStr o) = some o := by
  cases o <;> rfl

theorem decodeStrPairs_encodeStrPairs (l : List (String × String)) :
    decodeStrPairs (encodeStrPairs l) = some l := by
  induction l with
  | nil => rfl
  | cons p t ih =>
      obtain ⟨k, v⟩ := p
      rw [encodeStrPairs, decodeStrPairs]
      rw [show decodeStrPair (encodeStrPair (k, v)) = some (k, v) from rfl, ih]
      rfl

theorem decodeStrs_encodeStrs (l : List String) :
    decodeStrs (encodeStrs l) = some l := by
  induction l with
  | nil => rfl
  | cons s t ih => rw [encodeStrs, decodeStrs, ih]; rfl

theorem decodeUnionRest_strs (l : List String) :
    decodeUnionRest (SExprs.ofList (l.map SExpr.str)) = some l := by
  induction l with
  | nil => rfl
  | cons s t ih =>
      rw [List.map_cons, SExprs.ofList, decodeUnionRest, ih]
      rfl

theorem decodeTypeDef_encodeTypeDef (p : String × TypeDef) :
    decodeTypeDef (encodeTypeDef p) = some p := by
  obtain ⟨n, td⟩ := p
  cases td with
  | prim s => rfl
  | union alts =>
      cases alts with
      | nil => rfl
      | cons a rest =>
          rw [encodeTypeDef]
          rw [decodeTypeDef, decodeUnionRest_strs rest]
          rfl

theorem decodeTypeDefs_encodeTypeDefs (l : List (String × TypeDef)) :
    decodeTypeDefs (encodeTypeDefs l) = some l := by
  induction l with
  | nil => rfl
  | cons p t ih =>
      rw [encodeTypeDefs, decodeTypeDefs, decodeTypeDef_encodeTypeDef p, ih]
      rfl

theorem decodePredDef_encodePredDef (d : PredicateDefinition) :
    decodePredDef (encodePredDef d) = some d := by
  obtain ⟨pred, args, dsc, md, pars, pc⟩ := d
  rw [encodePredDef, decodePredDef]
  rw [decodeStrPairs_encodeStrPairs args, decodeOptStr_encodeOptStr dsc,
    decodeOptStr_encodeOptStr md, decodeStrs_encodeStrs pars,
    decodeOptStr_encodeOptStr pc]
  rfl

theorem decodePredDefs_encodePredDefs (l : List PredicateDefinition) :
    decodePredDefs (encodePredDefs l) = some l := by
  induction l with
  | nil => rfl
  | cons d t ih =>
      rw [encodePredDefs, decodePredDefs, decodePredDef_encodePredDef d, ih]
      rfl

theorem decodeSentenceList_encodeSentenceList (l : List Sentence)
    (h : sentListRF l = true) :
    decodeSentenceList (encodeSentenceList l) = some l := by
  induction l with
  | nil => rfl
  | cons s t ih =>
      have hsplit : sentRF s = true ∧ sentListRF t = true := by
        simpa only [sentListRF, List.all_cons, Bool.and_eq_true] using h
      rw [encodeSentenceList, decodeSentenceList, sentRoundtrip s hsplit.1,
        ih hsplit.2]
      rfl

theorem decodeGroup_encodeGroup (g : SentenceGroup)
    (h : sentListRF g.sentences = true) :
    decodeGroup (encodeGroup g) = some g := by
  obtain ⟨n, gt, ds, ss⟩ := g
  rw [encodeGroup, decodeGroup]
  rw [decodeOptStr_encodeOptStr gt, decodeOptStr_encodeOptStr ds,
    decodeSentenceList_encodeSentenceList ss h]
  rfl

theorem decodeGroups_encodeGroups (l : List SentenceGroup)
    (h : (l.all fun g => sentListRF g.sentences) = true) :
    decodeGroups (encodeGroups l) = some l := by
  induction l with
  | nil => rfl
  | cons g t ih =>
      have hsplit : sentListRF g.sentences = true
          ∧ (t.all fun g => sentListRF g.sentences) = true := by
        simpa only [List.all_cons, Bool.and_eq_true] using h
      rw [encodeGroups, decodeGroups, decodeGroup_encodeGroup g hsplit.1,
        ih hsplit.2]
      rfl

theorem sexpr_roundtrip (T : Theory) (h : theoryRF T = true) :
    readSexprTheory (sexprTheory T) = some T := by
  obtain ⟨n, cs, tds, pds, gs, gts⟩ := T
  have hsplit : ((gs.all fun g => sentListRF g.sentences) = true)
      ∧ sentListRF gts = true := by
    simpa only [theoryRF, Bool.and_eq_true] using h
  obtain ⟨h1, h2⟩ := hsplit
  show (do
      let consts ← decodeStrPairs (encodeStrPairs cs)
      let tdefs ← decodeTypeDefs (encodeTypeDefs tds)
      let pdefs ← decodePredDefs (encodePredDefs pds)
      let groups ← decodeGroups (encodeGroups gs)
      let grounds ← decodeSentenceList (encodeSentenceList gts)
      pure (Theory.mk n consts tdefs pdefs groups grounds))
    = some ⟨n, cs, tds, pds, gs, gts⟩
  rw [decodeStrPairs_encodeStrPairs cs, decodeTypeDefs_encodeTypeDefs tds,
    decodePredDefs_encodePredDefs pds, decodeGroups_encodeGroups gs h1,
    decodeSentenceList_encodeSentenceList gts h2]
  rfl

/-! ### The structured-record (YAML) interchange format

The record serializer produces a nested value structure — type-tagged
records with named fields — later laid out as YAML text; the value level is
what the round-trip contract is about.  Field layout follows the committed
`.yaml` snapshots (the YAML writer omits null-valued optional fields when
printing; the value-level model keeps every field explicit). -/

mutual

/-- A structured-record value: scalar, array or record. -/
inductive Value where
  | str (s : String)
  | num (m : Int) (k : Nat)
  | bool (b : Bool)
  | vnull
  | arr (xs : Values)
  | obj (fs : VFields)
deriving DecidableEq, Repr

/-- An array body. -/
inductive Values where
  | nil
  | cons (hd : Value) (tl : Values)
deriving DecidableEq, Repr

/-- A record body: ordered named fields. -/
inductive VFields where
  | nil
  | cons (key : String) (val : Value) (tl : VFields)
deriving DecidableEq, Repr

end

/-- Encode a literal constant as a record scalar. -/
def encodeConstV : Const → Value
  | .str s => .str s
  | .int n => .num n 0
  | .dec m k => .num m (k + 1)
  | .bool b => .bool b
  | .null => .vnull

/-- A type-tagged record `{type: tag, arguments: [xs]}` — the one fixed
encoding every Sentence variant uses in the record format. -/
def tagged (tag : String) (xs : Values) : Value :=
  .obj (.cons "type" (.str tag) (.cons "arguments" (.arr xs) .nil))

mutual

/-- Modelled from the spec: record encoding of a term argument — constants
as scalars, variables and nested terms as type-tagged records. -/
def encodeArgV : Arg → Value
  | .var n none => tagged "Variable" (.cons (.str n) .nil)
  | .var n (some t) => tagged "Variable" (.cons (.str n) (.cons (.str t) .nil))
  | .const c => encodeConstV c
  | .app f args => tagged "Term" (.cons (.str f) (encodeArgsV args))

/-- Encode an argument list. -/
def encodeArgsV : Args → Values
  | .nil => .nil
  | .cons a t => .cons (encodeArgV a) (encodeArgsV t)

end

/-- Encode a quantifier binder as a `Variable` record. -/
def encodeBinderV (b : Binder) : Value :=
  match b.ty with
  | none => tagged "Variable" (.cons (.str b.name) .nil)
  | some t => tagged "Variable" (.cons (.str b.name) (.cons (.str t) .nil))

/-- Encode a binder list. -/
def encodeBindersV : List Binder → Values
  | [] => .nil
  | b :: t => .cons (encodeBinderV b) (encodeBindersV t)

mutual

/-- Modelled from the spec: the type-tag-prefixed record encoding of a
Sentence, one fixed shape per variant (`{type: Forall, arguments:
[[binders…], body]}`, `{type: Term, arguments: [pred, arg…]}`, …) as the
YAML snapshots show. -/
def encodeSentenceV : Sentence → Value
  | .atom p args => tagged "Term" (.cons (.str p) (encodeArgsV args))
  | .not s => tagged "Not" (.cons (encodeSentenceV s) .nil)
  | .and xs => tagged "And" (encodeSentencesV xs)
  | .or xs => tagged "Or" (encodeSentencesV xs)
  | .implies a b =>
      tagged "Implies" (.cons (encodeSentenceV a) (.cons (encodeSentenceV b) .nil))
  | .iff a b =>
      tagged "Iff" (.cons (encodeSentenceV a) (.cons (encodeSentenceV b) .nil))
  | .forAll vs body =>
      tagged "Forall" (.cons (.arr (encodeBindersV vs)) (.cons (encodeSentenceV body) .nil))
  | .exist vs body =>
      tagged "Exists" (.cons (.arr (encodeBindersV vs)) (.cons (encodeSentenceV body) .nil))
  | .prob p s =>
      tagged "Probability" (.cons (encodeConstV p) (.cons (encodeSentenceV s) .nil))
  | .evid s pol =>
      tagged "Evidence" (.cons (encodeSentenceV s) (.cons (.bool pol) .nil))

/-- Encode an `And`/`Or` operand list. -/
def encodeSentencesV : Sentences → Values
  | .nil => .nil
  | .cons s t => .cons (encodeSentenceV s) (encodeSentencesV t)

end

/-- Encode an optional string field value. -/
def encodeOptStrV : Option String → Value
  | none => .vnull
  | some s => .str s

/-- Encode a string-to-string table as a record body. -/
def encodeStrPairsV : List (String × String) → VFields
  | [] => .nil
  | p :: t => .cons p.1 (.str p.2) (encodeStrPairsV t)

/-- Encode a plain string list. -/
def encodeStrsV : List String → Values
  | [] => .nil
  | s :: t => .cons (.str s) (encodeStrsV t)

/-- Encode the type-alias table: a primitive as a string scalar, a union as
the array of its alternatives. -/
def encodeTypeDefsV : List (String × TypeDef) → VFields
  | [] => .nil
  | (n, .prim p) :: t => .cons n (.str p) (encodeTypeDefsV t)
  | (n, .union alts) :: t => .cons n (.arr (encodeStrsV alts)) (encodeTypeDefsV t)

/-- Encode a PredicateDefinition record. -/
def encodePredDefV (d : PredicateDefinition) : Value :=
  .obj (.cons "type" (.str "PredicateDefinition")
    (.cons "predicate" (.str d.predicate)
    (.cons "arguments" (.obj (encodeStrPairsV d.arguments))
    (.cons "description" (encodeOptStrV d.description)
    (.cons "metadata" (encodeOptStrV d.metadata)
    (.cons "parents" (.arr (encodeStrsV d.parents))
    (.cons "python_class" (encodeOptStrV d.python_class) .nil)))))))

/-- Encode the predicate-definition list. -/
def encodePredDefsV : List PredicateDefinition → Values
  | [] => .nil
  | d :: t => .cons (encodePredDefV d) (encodePredDefsV t)

/-- Encode a sentence list. -/
def encodeSentenceListV : List Sentence → Values
  | [] => .nil
  | s :: t => .cons (encodeSentenceV s) (encodeSentenceListV t)

/-- Encode a SentenceGroup record. -/
def encodeGroupV (g : SentenceGroup) : Value :=
  .obj (.cons "type" (.str "SentenceGroup")
    (.cons "name" (.str g.name)
    (.cons "group_type" (encodeOptStrV g.group_type)
    (.cons "docstring" (encodeOptStrV g.docstring)
    (.cons "sentences" (.arr (encodeSentenceListV g.sentences)) .nil)))))

/-- Encode the group list. -/
def encodeGroupsV : List SentenceGroup → Values
  | [] => .nil
  | g :: t => .cons (encodeGroupV g) (encodeGroupsV t)

/-- Modelled from the spec: the structured-record serialization of a whole
Theory, the value structure later printed as YAML. -/
def recordTheory (T : Theory) : Value :=
  .obj (.cons "type" (.str "Theory")
    (.cons "name" (.str T.name)
    (.cons "constants" (.obj (encodeStrPairsV T.constants))
    (.cons "type_definitions" (.obj (encodeTypeDefsV T.type_definitions))
    (.cons "predicate_definitions" (.arr (encodePredDefsV T.predicate_definitions))
    (.cons "sentence_groups" (.arr (encodeGroupsV T.sentence_groups))
    (.cons "ground_terms" (.arr (encodeSentenceListV T.ground_terms)) .nil)))))))

/-! ### The structured-record reader -/

/-- Decode a constant scalar. -/
def decodeConstV : Value → Option Const
  | .str s => some (.str s)
  | .num m 0 => some (.int m)
  | .num m (k + 1) => some (.dec m k)
  | .bool b => some (.bool b)
  | .vnull => some .null
  | _ => none

/-- Decode the argument array of a `Variable` record. -/
def decodeVarShapeV : Values → Option Arg
  | .cons (.str n) .nil => some (.var n none)
  | .cons (.str n) (.cons (.str t) .nil) => some (.var n (some t))
  | _ => none

mutual

/-- Modelled from the spec: the record reader for term-argument position —
the inverse of `encodeArgV`. -/
def decodeArgV : Value → Option Arg
  | .obj (.cons "type" (.str tag) (.cons "arguments" (.arr xs) .nil)) =>
      if tag = "Variable" then decodeVarShapeV xs
      else if tag = "Term" then decodeAppShapeV xs
      else none
  | .obj _ => none
  | .arr _ => none
  | v => (decodeConstV v).map .const

/-- Decode the argument array of a `Term` record in argument position. -/
def decodeAppShapeV : Values → Option Arg
  | .cons (.str f) rest => (decodeArgsV rest).map (.app f)
  | _ => none

/-- Decode an argument list. -/
def decodeArgsV : Values → Option Args
  | .nil => some .nil
  | .cons x t => do
      let a ← decodeArgV x
      let r ← decodeArgsV t
      pure (.cons a r)

end

/-- Decode a binder record. -/
def decodeBinderV : Value → Option Binder
  | .obj (.cons "type" (.str "Variable") (.cons "arguments" (.arr xs) .nil)) =>
      match xs with
      | .cons (.str n) .nil => some ⟨n, none⟩
      | .cons (.str n) (.cons (.str t) .nil) => some ⟨n, some t⟩
      | _ => none
  | _ => none

/-- Decode a binder list. -/
def decodeBindersV : Values → Option (List Binder)
  | .nil => some []
  | .cons x t => do
      let b ← decodeBinderV x
      let r ← decodeBindersV t
      pure (b :: r)

mutual

/-- Modelled from the spec: the record reader for sentence position — the
inverse of `encodeSentenceV`, dispatching on the `type` tag. -/
def decodeSentenceV : Value → Option Sentence
  | .obj (.cons "type" (.str tag) (.cons "arguments" (.arr xs) .nil)) =>
      if tag = "Term" then decodeTermShapeV xs
      else if tag = "Not" then decodeNotShapeV xs
      else if tag = "And" then (decodeSentencesV xs).map .and
      else if tag = "Or" then (decodeSentencesV xs).map .or
      else if tag = "Implies" then decodePairShapeV .implies xs
      else if tag = "Iff" then decodePairShapeV .iff xs
      else if tag = "Forall" then decodeQuantShapeV .forAll xs
      else if tag = "Exists" then decodeQuantShapeV .exist xs
      else if tag = "Probability" then decodeProbShapeV xs
      else if tag = "Evidence" then decodeEvidShapeV xs
      else none
  | _ => none

/-- Decode a `Term` record's argument array in sentence position. -/
def decodeTermShapeV : Values → Option Sentence
  | .cons (.str p) rest => (decodeArgsV rest).map (.atom p)
  | _ => none

/-- Decode the operand of a `Not` record. -/
def decodeNotShapeV : Values → Option Sentence
  | .cons x .nil => (decodeSentenceV x).map .not
  | _ => none

/-- Decode the two operands of an `Implies`/`Iff` record. -/
def decodePairShapeV (k : Sentence → Sentence → Sentence) : Values → Option Sentence
  | .cons a (.cons b .nil) => do
      let x ← decodeSentenceV a
      let y ← decodeSentenceV b
      pure (k x y)
  | _ => none

/-- Decode the binder array and body of a `Forall`/`Exists` record. -/
def decodeQuantShapeV (k : List Binder → Sentence → Sentence) : Values → Option Sentence
  | .cons (.arr vs) (.cons body .nil) => do
      let bs ← decodeBindersV vs
      let s ← decodeSentenceV body
      pure (k bs s)
  | _ => none

/-- Decode the weight and operand of a `Probability` record. -/
def decodeProbShapeV : Values → Option Sentence
  | .cons p (.cons sx .nil) => do
      let c ← decodeConstV p
      let s ← decodeSentenceV sx
      pure (.prob c s)
  | _ => none

/-- Decode the operand and polarity of an `Evidence` record. -/
def decodeEvidShapeV : Values → Option Sentence
  | .cons sx (.cons (.bool b) .nil) => do
      let s ← decodeSentenceV sx
      pure (.evid s b)
  | _ => none

/-- Decode an `And`/`Or` operand list. -/
def decodeSentencesV : Values → Option Sentences
  | .nil => some .nil
  | .cons x t => do
      let s ← decodeSentenceV x
      let r ← decodeSentencesV t
      pure (.cons s r)

end

/-- Decode an optional string field value. -/
def decodeOptStrV : Value → Option (Option String)
  | .vnull => some none
  | .str s => some (some s)
  | _ => none

/-- Decode a string-to-string record body. -/
def decodeStrPairsV : VFields → Option (List (String × String))
  | .nil => some []
  | .cons k (.str v) t => do
      let r ← decodeStrPairsV t
      pure ((k, v) :: r)
  | .cons _ _ _ => none

/-- Decode a plain string array. -/
def decodeStrsV : Values → Option (List String)
  | .nil => some []
  | .cons (.str s) t => do
      let r ← decodeStrsV t
      pure (s :: r)
  | .cons _ _ => none

/-- Decode the type-alias table. -/
def decodeTypeDefsV : VFields → Option (List (String × TypeDef))
  | .nil => some []
  | .cons n (.str p) t => do
      let r ← decodeTypeDefsV t
      pure ((n, .prim p) :: r)
  | .cons n (.arr alts) t => do
      let a ← decodeStrsV alts
      let r ← decodeTypeDefsV t
      pure ((n, .union a) :: r)
  | .cons _ _ _ => none

/-- Decode a PredicateDefinition record. -/
def decodePredDefV : Value → Option PredicateDefinition
  | .obj (.cons "type" (.str "PredicateDefinition")
      (.cons "predicate" (.str pred)
      (.cons "arguments" (.obj argPairs)
      (.cons "description" dsc
      (.cons "metadata" md
      (.cons "parents" (.arr pars)
      (.cons "python_class" pc .nil))))))) => do
      let args ← decodeStrPairsV argPairs
      let d ← decodeOptStrV dsc
      let m ← decodeOptStrV md
      let ps ← decodeStrsV pars
      let p ← decodeOptStrV pc
      pure ⟨pred, args, d, m, ps, p⟩
  | _ => none

/-- Decode the predicate-definition array. -/
def decodePredDefsV : Values → Option (List PredicateDefinition)
  | .nil => some []
  | .cons x t => do
      let d ← decodePredDefV x
      let r ← decodePredDefsV t
      pure (d :: r)

/-- Decode a sentence array. -/
def decodeSentenceListV : Values → Option (List Sentence)
  | .nil => some []
  | .cons x t => do
      let s ← decodeSentenceV x
      let r ← decodeSentenceListV t
      pure (s :: r)

/-- Decode a SentenceGroup record. -/
def decodeGroupV : Value → Option SentenceGroup
  | .obj (.cons "type" (.str "SentenceGroup")
      (.cons "name" (.str n)
      (.cons "group_type" gt
      (.cons "docstring" ds
      (.cons "sentences" (.arr ss) .nil))))) => do
      let g ← decodeOptStrV gt
      let d ← decodeOptStrV ds
      let sents ← decodeSentenceListV ss
      pure ⟨n, g, d, sents⟩
  | _ => none

/-- Decode the group array. -/
def decodeGroupsV : Values → Option (List SentenceGroup)
  | .nil => some []
  | .cons x t => do
      let g ← decodeGroupV x
      let r ← decodeGroupsV t
      pure (g :: r)

/-- Modelled from the spec: the structured-record reader closing the
round-trip contract — the inverse of `recordTheory`. -/
def readRecordTheory : Value → Option Theory
  | .obj (.cons "type" (.str "Theory")
      (.cons "name" (.str n)
      (.cons "constants" (.obj cs)
      (.cons "type_definitions" (.obj tds)
      (.cons "predicate_definitions" (.arr pds)
      (.cons "sentence_groups" (.arr gs)
      (.cons "ground_terms" (.arr gts) .nil))))))) => do
      let consts ← decodeStrPairsV cs
      let tdefs ← decodeTypeDefsV tds
      let pdefs ← decodePredDefsV pds
      let groups ← decodeGroupsV gs
      let grounds ← decodeSentenceListV gts
      pure ⟨n, consts, tdefs, pdefs, groups, grounds⟩
  | _ => none

theorem decodeConstV_encodeConstV (c : Const) :
    decodeConstV (encodeConstV c) = some c := by
  cases c with
  | str s => rfl
  | int n => rfl
  | dec m k => rfl
  | bool b => cases b <;> rfl
  | null => rfl

mutual

theorem argVRoundtrip : ∀ (a : Arg), decodeArgV (encodeArgV a) = some a
  | .var n none => rfl
  | .var n (some t) => rfl
  | .const c => by
      cases c with
      | str s => rfl
      | int n => rfl
      | dec m k => rfl
      | bool b => cases b <;> rfl
      | null => rfl
  | .app f args => by
      rw [encodeArgV, tagged, decodeArgV]
      rw [if_neg (by decide), if_pos rfl, decodeAppShapeV, argsVRoundtrip args]
      rfl

theorem argsVRoundtrip : ∀ (l : Args), decodeArgsV (encodeArgsV l) = some l
  | .nil => rfl
  | .cons a t => by
      rw [encodeArgsV, decodeArgsV, argVRoundtrip a, argsVRoundtrip t]
      rfl

end

theorem decodeBinderV_encodeBinderV (b : Binder) :
    decodeBinderV (encodeBinderV b) = some b := by
  obtain ⟨n, ty⟩ := b
  cases ty <;> rfl

theorem decodeBindersV_encodeBindersV (l : List Binder) :
    decodeBindersV (encodeBindersV l) = some l := by
  induction l with
  | nil => rfl
  | cons b t ih =>
      rw [encodeBindersV, decodeBindersV, decodeBinderV_encodeBinderV b, ih]
      rfl

mutual

theorem sentVRoundtrip : ∀ (s : Sentence), decodeSentenceV (encodeSentenceV s) = some s
  | .atom p args => by
      show Option.map (Sentence.atom p) (decodeArgsV (encodeArgsV args)) = some (Sentence.atom p args)
      rw [argsVRoundtrip args]; rfl
  | .not s => by
      show Option.map Sentence.not (decodeSentenceV (encodeSentenceV s)) = some (Sentence.not s)
      rw [sentVRoundtrip s]; rfl
  | .and xs => by
      show Option.map Sentence.and (decodeSentencesV (encodeSentencesV xs)) = some (Sentence.and xs)
      rw [sentsVRoundtrip xs]; rfl
  | .or xs => by
      show Option.map Sentence.or (decodeSentencesV (encodeSentencesV xs)) = some (Sentence.or xs)
      rw [sentsVRoundtrip xs]; rfl
  | .implies a b => by
      show (do
          let x ← decodeSentenceV (encodeSentenceV a)
          let y ← decodeSentenceV (encodeSentenceV b)
          pure (Sentence.implies x y)) = some (.implies a b)
      rw [sentVRoundtrip a, sentVRoundtrip b]; rfl
  | .iff a b => by
      show (do
          let x ← decodeSentenceV (encodeSentenceV a)
          let y ← decodeSentenceV (encodeSentenceV b)
          pure (Sentence.iff x y)) = some (.iff a b)
      rw [sentVRoundtrip a, sentVRoundtrip b]; rfl
  | .forAll vs body => by
      show (do
          let bs ← decodeBindersV (encodeBindersV vs)
          let s ← decodeSentenceV (encodeSentenceV body)
          pure (Sentence.forAll bs s)) = some (.forAll vs body)
      rw [decodeBindersV_encodeBindersV vs, sentVRoundtrip body]; rfl
  | .exist vs body => by
      show (do
          let bs ← decodeBindersV (encodeBindersV vs)
          let s ← decodeSentenceV (encodeSentenceV body)
          pure (Sentence.exist bs s)) = some (.exist vs body)
      rw [decodeBindersV_encodeBindersV vs, sentVRoundtrip body]; rfl
  | .prob p s => by
      show (do
          let c ← decodeConstV (encodeConstV p)
          let x ← decodeSentenceV (encodeSentenceV s)
          pure (Sentence.prob c x)) = some (.prob p s)
      rw [decodeConstV_encodeConstV p, sentVRoundtrip s]; rfl
  | .evid s pol => by
      show (do
          let x ← decodeSentenceV (encodeSentenceV s)
          pure (Sentence.evid x pol)) = some (.evid s pol)
      rw [sentVRoundtrip s]; rfl

theorem sentsVRoundtrip : ∀ (xs : Sentences),
    decodeSentencesV (encodeSentencesV xs) = some xs
  | .nil => rfl
  | .cons s t => by
      show (do
          let x ← decodeSentenceV (encodeSentenceV s)
          let r ← decodeSentencesV (encodeSentencesV t)
          pure (Sentences.cons x r)) = some (.cons s t)
      rw [sentVRoundtrip s, sentsVRoundtrip t]; rfl

end

theorem decodeOptStrV_encodeOptStrV (o : Option String) :
    decodeOptStrV (encodeOptStrV o) = some o := by
  cases o <;> rfl

theorem decodeStrPairsV_encodeStrPairsV (l : List (String × String)) :
    decodeStrPairsV (encodeStrPairsV l) = some l := by
  induction l with
  | nil => rfl
  | cons p t ih =>
      obtain ⟨k, v⟩ := p
      rw [encodeStrPairsV, decodeStrPairsV, ih]
      rfl

theorem decodeStrsV_encodeStrsV (l : List String) :
    decodeStrsV (encodeStrsV l) = some l := by
  induction l with
  | nil => rfl
  | cons s t ih => rw [encodeStrsV, decodeStrsV, ih]; rfl

theorem decodeTypeDefsV_encodeTypeDefsV (l : List (String × TypeDef)) :
    decodeTypeDefsV (encodeTypeDefsV l) = some l := by
  induction l with
  | nil => rfl
  | cons p t ih =>
      obtain ⟨n, td⟩ := p
      cases td with
      | prim s => rw [encodeTypeDefsV, decodeTypeDefsV, ih]; rfl
      | union alts =>
          rw [encodeTypeDefsV, decodeTypeDefsV, decodeStrsV_encodeStrsV alts, ih]
          rfl

theorem decodePredDefV_encodePredDefV (d : PredicateDefinition) :
    decodePredDefV (encodePredDefV d) = some d := by
  obtain ⟨pred, args, dsc, md, pars, pc⟩ := d
  rw [encodePredDefV, decodePredDefV]
  rw [decodeStrPairsV_encodeStrPairsV args, decodeOptStrV_encodeOptStrV dsc,
    decodeOptStrV_encodeOptStrV md, decodeStrsV_encodeStrsV pars,
    decodeOptStrV_encodeOptStrV pc]
  rfl

theorem decodePredDefsV_encodePredDefsV (l : List PredicateDefinition) :
    decodePredDefsV (encodePredDefsV l) = some l := by
  induction l with
  | nil => rfl
  | cons d t ih =>
      rw [encodePredDefsV, decodePredDefsV, decodePredDefV_encodePredDefV d, ih]
      rfl

theorem decodeSentenceListV_encodeSentenceListV (l : List Sentence) :
    decodeSentenceListV (encodeSentenceListV l) = some l := by
  induction l with
  | nil => rfl
  | cons s t ih =>
      rw [encodeSentenceListV, decodeSentenceListV, sentVRoundtrip s, ih]
      rfl

theorem decodeGroupV_encodeGroupV (g : SentenceGroup) :
    decodeGroupV (encodeGroupV g) = some g := by
  obtain ⟨n, gt, ds, ss⟩ := g
  rw [encodeGroupV, decodeGroupV]
  rw [decodeOptStrV_encodeOptStrV gt, decodeOptStrV_encodeOptStrV ds,
    decodeSentenceListV_encodeSentenceListV ss]
  rfl

theorem decodeGroupsV_encodeGroupsV (l : List SentenceGroup) :
    decodeGroupsV (encodeGroupsV l) = some l := by
  induction l with
  | nil => rfl
  | cons g t ih =>
      rw [encodeGroupsV, decodeGroupsV, decodeGroupV_encodeGroupV g, ih]
      rfl

theorem record_roundtrip (T : Theory) :
    readRecordTheory (recordTheory T) = some T := by
  obtain ⟨n, cs, tds, pds, gs, gts⟩ := T
  show (do
      let consts ← decodeStrPairsV (encodeStrPairsV cs)
      let tdefs ← decodeTypeDefsV (encodeTypeDefsV tds)
      let pdefs ← decodePredDefsV (encodePredDefsV pds)
      let groups ← decodeGroupsV (encodeGroupsV gs)
      let grounds ← decodeSentenceListV (encodeSentenceListV gts)
      pure (Theory.mk n consts tdefs pdefs groups grounds))
    = some ⟨n, cs, tds, pds, gs, gts⟩
  rw [decodeStrPairsV_encodeStrPairsV cs, decodeTypeDefsV_encodeTypeDefsV tds,
    decodePredDefsV_encodePredDefsV pds, decodeGroupsV_encodeGroupsV gs,
    decodeSentenceListV_encodeSentenceListV gts]
  rfl

/-! ### The C3 claim: round trip -/

/-- A theory whose single sentence is the atomic proposition
`Term("And", p(), q())` — a predicate literally named after the conjunction
tag. -/
def andAtomTheory : Theory :=
  ⟨"t", [], [], [],
   [⟨"g", none, none, [.atom "And" (.cons (aApp "p" []) (.cons (aApp "q" []) .nil))]⟩],
   []⟩

/-- A theory whose single sentence is the conjunction `And(p(), q())`. -/
def andConnTheory : Theory :=
  ⟨"t", [], [], [],
   [⟨"g", none, none, [mkAnd [mkAtom "p" [], mkAtom "q" []]]⟩],
   []⟩

/-- C3 counterexample.  The canonical S-expression serialization is not
injective: a Theory whose sentence is the atomic `Term` named `And` applied
to the terms `p()`, `q()`, and a Theory whose sentence is the conjunction
`And(p(), q())`, serialize to the identical S-expression `(And (p) (q))`
inside identical Theory forms, yet the Theories differ — so no reader can
reconstruct every Theory from `sexpr_compile(T)`, and the claim's universal
round trip fails. -/
theorem c3_counterexample_sexpr_not_injective :
    sexprTheory andAtomTheory = sexprTheory andConnTheory
  ∧ andAtomTheory ≠ andConnTheory := by
  exact ⟨rfl, by decide⟩

/-- C3 (amended).  Reading back the canonical S-expression serialization
reconstructs the Theory exactly — names, types, predicate arities, sentence
tree shapes and literal values — for every Theory whose predicate and
functor names avoid the ten reserved variant tags (`Variable`, `Not`,
`And`, `Or`, `Implies`, `Iff`, `Forall`, `Exists`, `Probability`,
`Evidence`); without that restriction the encoding is not even injective.
The structured-record (YAML) interchange format, whose records carry an
explicit `type` tag for every variant, round-trips every Theory
unconditionally. -/
theorem c3_interchange_roundtrip :
    (∀ T : Theory, theoryRF T = true → readSexprTheory (sexprTheory T) = some T)
  ∧ (∀ T : Theory, readRecordTheory (recordTheory T) = some T) :=
  ⟨sexpr_roundtrip, record_roundtrip⟩

/-- C3 witness: both round trips of `c3_interchange_roundtrip` applied to
the concrete mortals theory, its reserved-tag freedom discharged by
evaluation. -/
theorem c3_interchange_roundtrip_witness :
    readSexprTheory (sexprTheory mortalsTheory) = some mortalsTheory
  ∧ readRecordTheory (recordTheory mortalsTheory) = some mortalsTheory :=
  ⟨c3_interchange_roundtrip.1 mortalsTheory (by decide),
   c3_interchange_roundtrip.2 mortalsTheory⟩

end TypedLogic
